import Mathlib

/-!
Verification development for the shape-xml dual-path XML engine.

The definitions below are shallow embeddings of the Go source:
* `FastParser` embeds `internal/fastparser/parser.go` (byte-cursor parser
  producing native map/string/array values).
* `XmlTok` embeds the XML token matchers of `internal/tokenizer` (rune
  fallback scanners) together with a tokenizer driver; the generic driver
  loop lives in the external shape-core package and is modelled from the
  specification.
* `AstParser` embeds `internal/parser/parser.go` (token-driven recursive
  descent building Object/Literal/Array nodes).
* `Render` embeds the AST renderer (`renderElement` and friends).
* `Enc` embeds the compiled-encoder marshal path (`appendEscapeXML`,
  `xmlStringEnc`, `buildXMLStructEncoder`, `buildXMLSliceEncoder`, ...)
  as a value-directed encoder, plus `Marshal` / `MarshalIndent`.
* `EncCache` embeds the copy-on-write encoder cache with its
  placeholder-before-recursion protocol (`xmlEncoderForType`).
* `FastUnmarshal` embeds the fast-path decode (`unmarshalValue`,
  `unmarshalStruct`, `extractTextContent`).

Machine integers never overflow in the modelled paths, so positions are
`Nat`. Source positions attached to AST nodes are informational only (not
part of node equality per the data model) and are omitted from the node
type; error values are structured terms carrying the same data the Go
`fmt.Errorf` calls interpolate.
-/

set_option maxHeartbeats 4000000

namespace FastParser

/-- Native fast-path value: string, map or array, mirroring the
`interface{}` values built by `internal/fastparser` (`map[string]interface{}`,
`[]interface{}`, `string`). -/
inductive NV where
  | s (v : String)
  | obj (m : List (String × NV))
  | arr (l : List NV)
deriving Repr

/-- Go map assignment `m[k] = v`: replace an existing binding or add a new
one. The list records insertion order (Go map iteration order is
irrelevant to every property proved here; lookups are by key). -/
def mapSet : List (String × NV) → String → NV → List (String × NV)
  | [], k, v => [(k, v)]
  | (k', v') :: r, k, v =>
    if k' = k then (k, v) :: r else (k', v') :: mapSet r k v

/-- Go map lookup `m[k]`. -/
def mapGet : List (String × NV) → String → Option NV
  | [], _ => none
  | (k', v') :: r, k => if k' = k then some v' else mapGet r k

/-- Structured error values for the fast parser; each constructor
corresponds to one `errors.New`/`fmt.Errorf` site in
`internal/fastparser/parser.go` and carries the interpolated data. -/
inductive Err where
  | outOfFuel
  | unexpectedEndOfXMLInput
  | expectedLt (pos : Nat)
  | expectedElementName (pos : Nat)
  | unexpectedEndInElement (name : String)
  | unexpectedEndExpectingClosing (name : String)
  | mismatchedTags (opening closing : String) (pos : Nat)
  | expectedGtInClosing (name : String) (pos : Nat)
  | expectedChildName (pos : Nat)
  | inElement (name : String) (e : Err)
  | expectedAttributeName (pos : Nat)
  | expectedEqAfterAttribute (name : String) (pos : Nat)
  | invalidAttributeValue (name : String) (e : Err)
  | expectedString
  | expectedQuote (pos : Nat)
  | unterminatedString
  | unexpectedEndAfterBackslash
  | unterminatedXMLDeclaration
  | unterminatedComment
  | unterminatedCData
  | expectedCDataSection
  | contentAfterRoot (pos : Nat)
deriving Repr

/-- Names of the XML element tags mentioned by an error value (the `%q`
interpolations of the corresponding `fmt.Errorf` calls). -/
def Err.tagNames : Err → List String
  | .mismatchedTags o c _ => [o, c]
  | .inElement n e => n :: e.tagNames
  | .unexpectedEndInElement n => [n]
  | .unexpectedEndExpectingClosing n => [n]
  | .expectedGtInClosing n _ => [n]
  | .invalidAttributeValue _ e => e.tagNames
  | _ => []

/-- Whitespace per the source `isWhitespace` (space, tab, LF, CR). -/
def isWhitespace (c : Char) : Bool :=
  c = ' ' || c = '\t' || c = '\n' || c = '\r'

/-- Length of the leading whitespace run of a character list. -/
def wsRun : List Char → Nat
  | [] => 0
  | c :: r => if isWhitespace c then wsRun r + 1 else 0

/-- The cursor after `skipWhitespace` starting at `pos`. -/
def skipWhitespace (data : List Char) (pos : Nat) : Nat :=
  pos + wsRun (data.drop pos)

/-- Source `peek`: current character, or the zero byte at end of input. -/
def peek (data : List Char) (pos : Nat) : Char :=
  ((data.drop pos).headD (Char.ofNat 0))

/-- Whether `pat` occurs at cursor `pos` (source `peekString`). -/
def leadsWith : List Char → List Char → Bool
  | [], _ => true
  | _ :: _, [] => false
  | p :: ps, c :: cs => p = c && leadsWith ps cs

def peekString (data : List Char) (pos : Nat) (pat : String) : Bool :=
  leadsWith pat.data (data.drop pos)

/-- Source `consume`: expect one character, returning the advanced cursor. -/
def consume (data : List Char) (pos : Nat) (expected : Char) : Option Nat :=
  if pos < data.length && peek data pos = expected then some (pos + 1)
  else none

/-- First name character classifier of `internal/fastparser` (byte
version): ASCII letters, underscore and colon. -/
def isNameStartByte (c : Char) : Bool :=
  ('A' ≤ c && c ≤ 'Z') || ('a' ≤ c && c ≤ 'z') || c = '_' || c = ':'

/-- Continuation name character classifier of `internal/fastparser`. -/
def isNameByte (c : Char) : Bool :=
  isNameStartByte c || ('0' ≤ c && c ≤ '9') || c = '.' || c = '-'

/-- Length of the run of name-continuation characters. -/
def nameRun : List Char → Nat
  | [] => 0
  | c :: r => if isNameByte c then nameRun r + 1 else 0

/-- Source `readName`: the scanned name (possibly empty) and the new
cursor. -/
def readName (data : List Char) (pos : Nat) : String × Nat :=
  match data.drop pos with
  | [] => ("", pos)
  | c :: r =>
    if isNameStartByte c then
      let n := nameRun r
      (String.mk ((data.drop pos).take (n + 1)), pos + n + 1)
    else ("", pos)

/-- Substring `data[start:stop]` as a string. -/
def slice (data : List Char) (start stop : Nat) : String :=
  String.mk ((data.drop start).take (stop - start))

/-- Slow scanning loop `parseStringWithEscapes` accumulating into `buf`;
entered after the first backslash was found. -/
def parseStringEscapes : Nat → List Char → List Char → Nat → Char →
    Except Err (String × Nat)
  | 0, _, _, _, _ => .error .outOfFuel
  | fuel + 1, data, buf, pos, quote =>
    if pos < data.length then
      let c := peek data pos
      if c = quote then .ok (String.mk buf, pos + 1)
      else if c = '\\' then
        if pos + 1 < data.length then
          let escaped := peek data (pos + 1)
          let addition :=
            if escaped = '\\' || escaped = '"' || escaped = '\'' then [escaped]
            else if escaped = 'n' then ['\n']
            else if escaped = 't' then ['\t']
            else if escaped = 'r' then ['\r']
            else ['\\', escaped]
          parseStringEscapes fuel data (buf ++ addition) (pos + 2) quote
        else .error .unexpectedEndAfterBackslash
      else parseStringEscapes fuel data (buf ++ [c]) (pos + 1) quote
    else .error .unterminatedString

/-- Fast scanning loop of `parseString` (switches to
`parseStringEscapes` on the first backslash, as the source does). -/
def parseStringPlain : Nat → List Char → Nat → Nat → Char →
    Except Err (String × Nat)
  | 0, _, _, _, _ => .error .outOfFuel
  | fuel + 1, data, start, pos, quote =>
    if pos < data.length then
      let c := peek data pos
      if c = quote then .ok (slice data start pos, pos + 1)
      else if c = '\\' then
        parseStringEscapes fuel data ((data.drop start).take (pos - start))
          pos quote
      else parseStringPlain fuel data start (pos + 1) quote
    else .error .unterminatedString

/-- Source `parseString`: quoted attribute value (single or double
quotes). -/
def parseString (fuel : Nat) (data : List Char) (pos : Nat) :
    Except Err (String × Nat) :=
  if pos < data.length then
    let quote := peek data pos
    if quote = '"' || quote = '\'' then
      parseStringPlain fuel data (pos + 1) (pos + 1) quote
    else .error (.expectedQuote pos)
  else .error .expectedString

/-- Source `parseAttribute`: name, `=`, quoted value. -/
def parseAttribute (fuel : Nat) (data : List Char) (pos : Nat) :
    Except Err (String × String × Nat) :=
  let (attrName, pos1) := readName data pos
  if attrName = "" then .error (.expectedAttributeName pos1)
  else
    let pos2 := skipWhitespace data pos1
    match consume data pos2 '=' with
    | none => .error (.expectedEqAfterAttribute attrName pos2)
    | some pos3 =>
      let pos4 := skipWhitespace data pos3
      match parseString fuel data pos4 with
      | .error e => .error (.invalidAttributeValue attrName e)
      | .ok (v, pos5) => .ok (attrName, v, pos5)

/-- Source `parseText`: raw text up to the next `<` or end of input.
No entity decoding is performed. -/
def textRun : List Char → Nat
  | [] => 0
  | c :: r => if c = '<' then 0 else textRun r + 1

def parseText (data : List Char) (pos : Nat) : String × Nat :=
  let n := textRun (data.drop pos)
  (slice data pos (pos + n), pos + n)

/-- Scanning loop of `skipComment` searching for the `-->` terminator;
mirrors `for p.pos < p.length-2`. -/
def skipCommentLoop : Nat → List Char → Nat → Nat × Option Err
  | 0, _, pos => (pos, some .outOfFuel)
  | fuel + 1, data, pos =>
    if pos < data.length - 2 then
      if peek data pos = '-' && peek data (pos + 1) = '-' &&
          peek data (pos + 2) = '>' then (pos + 3, none)
      else skipCommentLoop fuel data (pos + 1)
    else (pos, some .unterminatedComment)

/-- Source `skipComment`: consume `<!-- ... -->`, reporting the new
cursor and an error when unterminated (the cursor advances either way,
as the Go method mutates `p.pos` before returning the error). -/
def skipComment (fuel : Nat) (data : List Char) (pos : Nat) :
    Nat × Option Err :=
  if peekString data pos "<!--" then skipCommentLoop fuel data (pos + 4)
  else (pos, none)

/-- Scanning loop of `skipXMLDeclaration` searching for `?>`. -/
def skipXMLDeclLoop : Nat → List Char → Nat → Nat × Option Err
  | 0, _, pos => (pos, some .outOfFuel)
  | fuel + 1, data, pos =>
    if pos < data.length - 1 then
      if peek data pos = '?' && peek data (pos + 1) = '>' then (pos + 2, none)
      else skipXMLDeclLoop fuel data (pos + 1)
    else (pos, some .unterminatedXMLDeclaration)

/-- Source `skipXMLDeclaration`. -/
def skipXMLDeclaration (fuel : Nat) (data : List Char) (pos : Nat) :
    Nat × Option Err :=
  if peekString data pos "<?xml" then skipXMLDeclLoop fuel data (pos + 5)
  else (pos, none)

/-- Scanning loop of `parseCDataContent` searching for `]]>`. -/
def cdataLoop : Nat → List Char → Nat → Nat → Except Err (String × Nat)
  | 0, _, _, _ => .error .outOfFuel
  | fuel + 1, data, start, pos =>
    if pos < data.length - 2 then
      if peek data pos = ']' && peek data (pos + 1) = ']' &&
          peek data (pos + 2) = '>' then
        .ok (slice data start pos, pos + 3)
      else cdataLoop fuel data start (pos + 1)
    else .error .unterminatedCData

/-- Source `parseCDataContent`: raw CDATA payload. -/
def parseCDataContent (fuel : Nat) (data : List Char) (pos : Nat) :
    Except Err (String × Nat) :=
  if peekString data pos "<![CDATA[" then
    cdataLoop fuel data (pos + 9) (pos + 9)
  else .error .expectedCDataSection

/-- Source `skipComments`: repeatedly skip comments (ignoring their
errors) with interleaved whitespace skipping. -/
def skipComments : Nat → List Char → Nat → Nat
  | 0, _, pos => pos
  | fuel + 1, data, pos =>
    if peekString data pos "<!--" then
      let (pos1, _) := skipComment fuel data pos
      skipComments fuel data (skipWhitespace data pos1)
    else pos

/-- Source `skipCommentsAndWhitespace`. -/
def skipCommentsAndWhitespace : Nat → List Char → Nat → Nat
  | 0, _, pos => pos
  | fuel + 1, data, pos =>
    if pos < data.length then
      if peekString data pos "<!--" then
        let (pos1, _) := skipComment fuel data pos
        skipCommentsAndWhitespace fuel data pos1
      else if isWhitespace (peek data pos) then
        skipCommentsAndWhitespace fuel data (pos + 1)
      else pos
    else pos

/-- Source `trimSpace`. -/
def trimSpace (s : String) : String :=
  String.mk ((s.data.dropWhile (isWhitespace ·)).reverse.dropWhile
    (isWhitespace ·)).reverse

/-- Source `joinStrings`. -/
def joinStrings (parts : List String) : String :=
  String.join parts


mutual

/-- Source `parseElement` (fast parser): `<`, name, then the attribute
loop. -/
def parseElement : Nat → List Char → Nat →
    Except Err (List (String × NV) × Nat)
  | 0, _, _ => .error .outOfFuel
  | fuel + 1, data, pos =>
    match consume data pos '<' with
    | none => .error (.expectedLt pos)
    | some pos1 =>
      let (elementName, pos2) := readName data pos1
      if elementName = "" then .error (.expectedElementName pos2)
      else attrLoop fuel data pos2 elementName []

/-- Attribute-reading loop of the fast `parseElement` (the
`for { ... }` over attributes). -/
def attrLoop : Nat → List Char → Nat → String → List (String × NV) →
    Except Err (List (String × NV) × Nat)
  | 0, _, _, _, _ => .error .outOfFuel
  | fuel + 1, data, pos, elementName, result =>
    let pos1 := skipWhitespace data pos
    if pos1 < data.length then
      if peekString data pos1 "/>" then .ok (result, pos1 + 2)
      else if peek data pos1 = '>' then
        contentLoop fuel data (pos1 + 1) elementName result [] []
      else
        match parseAttribute fuel data pos1 with
        | .error e => .error (.inElement elementName e)
        | .ok (attrName, attrValue, pos2) =>
          attrLoop fuel data pos2 elementName
            (mapSet result ("@" ++ attrName) (.s attrValue))
    else .error (.unexpectedEndInElement elementName)

/-- Content loop of the fast `parseElement`: text, CDATA, comments and
child elements, with duplicate children coalesced into arrays. -/
def contentLoop : Nat → List Char → Nat → String → List (String × NV) →
    List String → List String → Except Err (List (String × NV) × Nat)
  | 0, _, _, _, _, _, _ => .error .outOfFuel
  | fuel + 1, data, pos, elementName, result, textParts, cdataParts =>
    let pos1 := skipWhitespace data pos
    if pos1 < data.length then
      if peekString data pos1 "</" then
        let pos2 := pos1 + 2
        let (closingName, pos3) := readName data pos2
        if closingName ≠ elementName then
          .error (.mismatchedTags elementName closingName pos3)
        else
          let pos4 := skipWhitespace data pos3
          match consume data pos4 '>' with
          | none => .error (.expectedGtInClosing elementName pos4)
          | some pos5 =>
            let result1 :=
              if textParts.length > 0 then
                let text := trimSpace (joinStrings textParts)
                if text ≠ "" then mapSet result "#text" (.s text) else result
              else result
            let result2 :=
              if cdataParts.length > 0 then
                mapSet result1 "#cdata" (.s (joinStrings cdataParts))
              else result1
            .ok (result2, pos5)
      else if peekString data pos1 "<!--" then
        match skipComment fuel data pos1 with
        | (_, some e) => .error e
        | (pos2, none) =>
          contentLoop fuel data pos2 elementName result textParts cdataParts
      else if peekString data pos1 "<![CDATA[" then
        match parseCDataContent fuel data pos1 with
        | .error e => .error e
        | .ok (cdata, pos2) =>
          contentLoop fuel data pos2 elementName result textParts
            (cdataParts ++ [cdata])
      else if peek data pos1 = '<' then
        let result1 :=
          if textParts.length > 0 then
            let text := trimSpace (joinStrings textParts)
            if text ≠ "" then mapSet result "#text" (.s text) else result
          else result
        let (childName, _) := readName data (pos1 + 1)
        if childName = "" then .error (.expectedChildName pos1)
        else
          match parseElement fuel data pos1 with
          | .error e => .error (.inElement elementName e)
          | .ok (childNode, pos2) =>
            let result2 :=
              match mapGet result1 childName with
              | some (.arr a) =>
                mapSet result1 childName (.arr (a ++ [.obj childNode]))
              | some existing =>
                mapSet result1 childName (.arr [existing, .obj childNode])
              | none => mapSet result1 childName (.obj childNode)
            contentLoop fuel data pos2 elementName result2 [] cdataParts
      else
        let (text, pos2) := parseText data pos1
        if text ≠ "" then
          contentLoop fuel data pos2 elementName result
            (textParts ++ [text]) cdataParts
        else
          contentLoop fuel data pos2 elementName result textParts cdataParts
    else .error (.unexpectedEndExpectingClosing elementName)

end

/-- Fuel that is ample for every concrete input evaluated below: each
recursive call in the mutual block advances the cursor or consumes one
unit of nesting, both bounded by the input length. -/
def fuelFor (data : List Char) : Nat := 8 * data.length + 64

/-- Source `Parser.Parse` of `internal/fastparser`: optional XML
declaration, leading comments, one root element, trailing
comments/whitespace, then end of input. -/
def Parse (data : List Char) : Except Err NV :=
  let fuel := fuelFor data
  let pos := skipWhitespace data 0
  if pos < data.length then
    let declStep :=
      if peekString data pos "<?xml" then skipXMLDeclaration fuel data pos
      else (pos, none)
    match declStep with
    | (_, some e) => .error e
    | (pos1, none) =>
      let pos2 := skipComments fuel data (skipWhitespace data pos1)
      match parseElement fuel data pos2 with
      | .error e => .error e
      | .ok (result, pos3) =>
        let pos4 := skipCommentsAndWhitespace fuel data pos3
        if pos4 < data.length then .error (.contentAfterRoot pos4)
        else .ok (.obj result)
  else .error .unexpectedEndOfXMLInput

end FastParser

namespace XmlTok

/-- Token kind constants of `internal/tokenizer/tokens.go`. -/
def TokenTagOpen : String := "TagOpen"
def TokenTagClose : String := "TagClose"
def TokenTagSelfClose : String := "TagSelfClose"
def TokenEndTagOpen : String := "EndTagOpen"
def TokenEquals : String := "Equals"
def TokenName : String := "Name"
def TokenString : String := "String"
def TokenText : String := "Text"
def TokenCDataStart : String := "CDataStart"
def TokenCommentStart : String := "CommentStart"
def TokenCommentEnd : String := "CommentEnd"
def TokenXMLDeclStart : String := "XMLDeclStart"
def TokenPIStart : String := "PIStart"
def TokenPIEnd : String := "PIEnd"
def TokenEOF : String := "EOF"
def TokenWhitespace : String := "Whitespace"

/-- Token as produced by the tokenizer: a kind tag and the matched text.
Positions are diagnostic only and omitted (see the file header). -/
structure Token where
  kind : String
  value : String
deriving Repr

/-- Source `isNameStartChar` (rune fallback classifier of
`internal/tokenizer`): ASCII letters, underscore and colon only. -/
def isNameStartChar (r : Char) : Bool :=
  ('A' ≤ r && r ≤ 'Z') || ('a' ≤ r && r ≤ 'z') || r = '_' || r = ':'

/-- Source `isNameChar` (rune fallback classifier). -/
def isNameChar (r : Char) : Bool :=
  isNameStartChar r || ('0' ≤ r && r ≤ '9') || r = '.' || r = '-'

/-- Source `nameMatcherRune`: a name token when the first character is a
name-start character; consumes the maximal run of name characters. -/
def nameMatcherRune (l : List Char) : Option (Token × List Char) :=
  match l with
  | [] => none
  | c :: _ =>
    if isNameStartChar c then
      let value := l.takeWhile isNameChar
      if value.length = 0 then none
      else some ({kind := TokenName, value := String.mk value},
        l.drop value.length)
    else none

/-- Source `textMatcherRune`: text up to (not including) the next `<`. -/
def textMatcherRune (l : List Char) : Option (Token × List Char) :=
  match l with
  | [] => none
  | c :: _ =>
    if c = '<' then none
    else
      let value := l.takeWhile (· ≠ '<')
      if value.length = 0 then none
      else some ({kind := TokenText, value := String.mk value},
        l.drop value.length)

/-- Scanning loop of `stringMatcherRune`: accumulate characters until the
closing quote, treating a backslash plus the following character as an
escape pair (both kept verbatim in the token text). -/
def stringScan : Nat → List Char → List Char → Char →
    Option (List Char × List Char)
  | 0, _, _, _ => none
  | _ + 1, [], _, _ => none
  | fuel + 1, r :: rest, value, quote =>
    if r = quote then some (value ++ [r], rest)
    else if r = '\\' then
      match rest with
      | [] => none
      | esc :: rest2 => stringScan fuel rest2 (value ++ [r, esc]) quote
    else stringScan fuel rest (value ++ [r]) quote

/-- Source `stringMatcherRune` (token text includes the quotes). -/
def stringMatcherRune (l : List Char) : Option (Token × List Char) :=
  match l with
  | [] => none
  | c :: rest =>
    if c = '"' || c = '\'' then
      match stringScan (l.length + 1) rest [c] c with
      | some (value, rest2) =>
        some ({kind := TokenString, value := String.mk value}, rest2)
      | none => none
    else none

/-- Scanning loop of `CommentMatcher` searching for `-->`. -/
def commentScan : Nat → List Char → Option (List Char)
  | 0, _ => none
  | _ + 1, [] => none
  | fuel + 1, l@(_ :: rest) =>
    if FastParser.leadsWith "-->".data l then some (l.drop 3)
    else commentScan fuel rest

/-- Source `CommentMatcher`: consumes a complete `<!-- ... -->` comment
and emits a single `CommentStart` token (no `CommentEnd` token is ever
produced). -/
def commentMatcher (l : List Char) : Option (Token × List Char) :=
  if FastParser.leadsWith "<!--".data l then
    match commentScan (l.length + 1) (l.drop 4) with
    | some rest => some ({kind := TokenCommentStart, value := "<!--"}, rest)
    | none => none
  else none

/-- Source `CDataMatcher`: emits only the `CDataStart` token. -/
def cdataMatcher (l : List Char) : Option (Token × List Char) :=
  if FastParser.leadsWith "<![CDATA[".data l then
    some ({kind := TokenCDataStart, value := "<![CDATA["}, l.drop 9)
  else none

/-- Source `PIAndXMLDeclMatcher`. -/
def piAndXMLDeclMatcher (l : List Char) : Option (Token × List Char) :=
  if FastParser.leadsWith "<?xml".data l then
    some ({kind := TokenXMLDeclStart, value := "<?xml"}, l.drop 5)
  else if FastParser.leadsWith "<?".data l then
    some ({kind := TokenPIStart, value := "<?"}, l.drop 2)
  else none

/-- Literal-string matcher (`tokenizer.StringMatcherFunc` of shape-core,
modelled from the spec: match a fixed string, emit a token of the given
kind). -/
def literalMatcher (kind : String) (lit : String) (l : List Char) :
    Option (Token × List Char) :=
  if FastParser.leadsWith lit.data l then
    some ({kind := kind, value := lit}, l.drop lit.length)
  else none

/-- Modelled from the spec: the shape-core tokenizer engine produces a
`Whitespace` token for a run of whitespace between the format-specific
tokens (the AST parser skips tokens of this kind); whitespace inside a
text run is captured by the text matcher instead. -/
def whitespaceMatcher (l : List Char) : Option (Token × List Char) :=
  match l with
  | [] => none
  | c :: _ =>
    if FastParser.isWhitespace c then
      let value := l.takeWhile (FastParser.isWhitespace ·)
      some ({kind := TokenWhitespace, value := String.mk value},
        l.drop value.length)
    else none

/-- Modelled from the spec: the engine tries the whitespace matcher and
then the registered matchers in the fixed order of `NewTokenizer`
(comment, CDATA, PI/XML-declaration, PI-end, end-tag-open, self-close,
`<`, `>`, `=`, string, name, text), returning the first match. -/
def nextToken (l : List Char) : Option (Token × List Char) :=
  (whitespaceMatcher l).orElse fun _ =>
  (commentMatcher l).orElse fun _ =>
  (cdataMatcher l).orElse fun _ =>
  (piAndXMLDeclMatcher l).orElse fun _ =>
  (literalMatcher TokenPIEnd "?>" l).orElse fun _ =>
  (literalMatcher TokenEndTagOpen "</" l).orElse fun _ =>
  (literalMatcher TokenTagSelfClose "/>" l).orElse fun _ =>
  (literalMatcher TokenTagOpen "<" l).orElse fun _ =>
  (literalMatcher TokenTagClose ">" l).orElse fun _ =>
  (literalMatcher TokenEquals "=" l).orElse fun _ =>
  (stringMatcherRune l).orElse fun _ =>
  (nameMatcherRune l).orElse fun _ =>
  textMatcherRune l

end XmlTok

namespace AstParser

open XmlTok

/-- AST node: the Object/Literal/Array tagged union of the tree model
(`ast.ObjectNode` / `ast.LiteralNode` / `ast.ArrayDataNode`). Node
positions are informational only and omitted. -/
inductive Node where
  | objN (props : List (String × Node))
  | litN (v : String)
  | arrN (elems : List Node)
deriving Repr

/-- Go map assignment on node property maps. -/
def propSet : List (String × Node) → String → Node → List (String × Node)
  | [], k, v => [(k, v)]
  | (k', v') :: r, k, v =>
    if k' = k then (k, v) :: r else (k', v') :: propSet r k v

/-- Go map lookup on node property maps. -/
def propGet : List (String × Node) → String → Option Node
  | [], _ => none
  | (k', v') :: r, k => if k' = k then some v' else propGet r k

/-- Structured error values of the AST parser; each constructor is one
`fmt.Errorf` site of `internal/parser/parser.go` with its interpolated
tag names / token kinds (positions omitted). -/
inductive AErr where
  | outOfFuel
  | expectedGotEOF (kind : String)
  | expectedGot (kind got : String)
  | expectedElementName (got : String)
  | unexpectedEndInElement (name : String)
  | inElement (name : String) (e : AErr)
  | expectedClosingTag (name : String) (e : AErr)
  | expectedNameInClosingTag
  | mismatchedTags (opening closing : String)
  | expectedGtInClosingTag (name : String) (e : AErr)
  | expectedAttributeName
  | expectedEqAfterAttribute (name : String) (e : AErr)
  | expectedStringValue (attrName : String)
  | unterminatedCData
  | unexpectedTokenInContent (kind : String)
  | unterminatedXMLDeclaration
  | contentAfterRoot
deriving Repr

/-- Names of the XML element tags mentioned by an AST-parser error. -/
def AErr.tagNames : AErr → List String
  | .mismatchedTags o c => [o, c]
  | .inElement n e => n :: e.tagNames
  | .expectedClosingTag n e => n :: e.tagNames
  | .expectedGtInClosingTag n e => n :: e.tagNames
  | .unexpectedEndInElement n => [n]
  | .expectedEqAfterAttribute _ e => e.tagNames
  | _ => []

/-- Parser state: remaining characters, the current token (`p.current`,
which Go keeps stale after the stream is exhausted), the `hasToken`
flag, and whether the end-of-input token has been handed out yet (the
shape-core stream yields one `EOF` token, then reports no token;
modelled from the spec, which lists end-of-input among the token
kinds). -/
structure PState where
  rest : List Char
  current : Option Token
  hasToken : Bool
  eofEmitted : Bool
deriving Repr

/-- Source `advance`: pull the next token from the tokenizer. -/
def advance (s : PState) : PState :=
  match nextToken s.rest with
  | some (t, r) => ⟨r, some t, true, s.eofEmitted⟩
  | none =>
    if s.eofEmitted then {s with hasToken := false}
    else ⟨[], some ⟨TokenEOF, ""⟩, true, true⟩

/-- Source `peek`: skip `Whitespace` tokens (mutating the state), then
return the current token. -/
def peekSkipWS : Nat → PState → PState
  | 0, s => s
  | fuel + 1, s =>
    match s.current with
    | some t =>
      if s.hasToken && t.kind = TokenWhitespace then
        peekSkipWS fuel (advance s)
      else s
    | none => s

def peekT (s : PState) : Option Token × PState :=
  let s1 := peekSkipWS (s.rest.length + 2) s
  (s1.current, s1)

/-- Source `expect`: consume a token of the given kind or fail. -/
def expect (s : PState) (kind : String) : Except AErr PState :=
  let (tok, s1) := peekT s
  match tok with
  | none => .error (.expectedGotEOF kind)
  | some t =>
    if t.kind = kind then .ok (advance s1)
    else .error (.expectedGot kind t.kind)

/-- Source `unquoteString`: strip the surrounding quotes, then decode
the five predefined XML entities via successive `strings.ReplaceAll`. -/
def replaceAllL : Nat → List Char → List Char → List Char → List Char
  | 0, s, _, _ => s
  | _ + 1, [], _, _ => []
  | fuel + 1, s@(c :: rest), pat, repl =>
    if FastParser.leadsWith pat s then
      repl ++ replaceAllL fuel (s.drop pat.length) pat repl
    else c :: replaceAllL fuel rest pat repl

def replaceAll (s pat repl : String) : String :=
  String.mk (replaceAllL (s.length + 1) s.data pat.data repl.data)

def unquoteString (s : String) : String :=
  let l := s.data
  let stripped :=
    if l.length ≥ 2 &&
        ((l.headD ' ' = '"' && l.getLastD ' ' = '"') ||
         (l.headD ' ' = '\'' && l.getLastD ' ' = '\'')) then
      String.mk ((l.drop 1).take (l.length - 2))
    else s
  let s1 := replaceAll stripped "&lt;" "<"
  let s2 := replaceAll s1 "&gt;" ">"
  let s3 := replaceAll s2 "&amp;" "&"
  let s4 := replaceAll s3 "&apos;" "'"
  replaceAll s4 "&quot;" "\""

/-- Source `skipComment` (parser level): consume the `CommentStart`
token, then keep consuming tokens until a `CommentEnd` token or the end
of the stream. The tokenizer never emits `CommentEnd` (the comment
matcher swallows the whole comment), so this loop runs to the end of
the token stream, exactly as the Go code does. -/
def skipCommentLoopT : Nat → PState → PState
  | 0, s => s
  | fuel + 1, s =>
    let (tok, s1) := peekT s
    match tok with
    | none => s1
    | some t =>
      if ¬ s1.hasToken then s1
      else if t.kind = TokenCommentEnd then advance s1
      else skipCommentLoopT fuel (advance s1)

def skipCommentT (fuel : Nat) (s : PState) : PState :=
  let (tok, s1) := peekT s
  match tok with
  | none => s1
  | some t =>
    if t.kind = TokenCommentStart then skipCommentLoopT fuel (advance s1)
    else s1

/-- Source `skipComments`. -/
def skipCommentsT : Nat → PState → PState
  | 0, s => s
  | fuel + 1, s =>
    let (tok, s1) := peekT s
    match tok with
    | some t =>
      if t.kind = TokenCommentStart then
        skipCommentsT fuel (skipCommentT fuel s1)
      else s1
    | none => s1

/-- Source `skipCommentsAndWhitespace`. -/
def skipCommentsAndWhitespaceT : Nat → PState → PState
  | 0, s => s
  | fuel + 1, s =>
    let (tok, s1) := peekT s
    match tok with
    | none => s1
    | some t =>
      if ¬ s1.hasToken then s1
      else if t.kind = TokenCommentStart then
        skipCommentsAndWhitespaceT fuel (skipCommentT fuel s1)
      else if t.kind = TokenWhitespace then
        skipCommentsAndWhitespaceT fuel (advance s1)
      else s1

/-- Source `skipXMLDeclaration` (parser level). -/
def skipXMLDeclLoopT : Nat → PState → Except AErr PState
  | 0, _ => .error .outOfFuel
  | fuel + 1, s =>
    let (tok, s1) := peekT s
    match tok with
    | none => .error .unterminatedXMLDeclaration
    | some t =>
      if ¬ s1.hasToken then .error .unterminatedXMLDeclaration
      else if t.kind = TokenPIEnd then .ok (advance s1)
      else skipXMLDeclLoopT fuel (advance s1)

def skipXMLDeclarationT (fuel : Nat) (s : PState) : Except AErr PState := do
  let s1 ← expect s TokenXMLDeclStart
  skipXMLDeclLoopT fuel s1

/-- Source `parseAttribute`. -/
def parseAttribute (s : PState) : Except AErr (String × Node × PState) :=
  let (tok, s1) := peekT s
  match tok with
  | some t =>
    if t.kind = TokenName then
      let attrName := t.value
      let s2 := advance s1
      match expect s2 TokenEquals with
      | .error e => .error (.expectedEqAfterAttribute attrName e)
      | .ok s3 =>
        let (tok3, s4) := peekT s3
        match tok3 with
        | some t3 =>
          if t3.kind = TokenString then
            let valueStr := unquoteString t3.value
            .ok (attrName, .litN valueStr, advance s4)
          else .error (.expectedStringValue attrName)
        | none => .error (.expectedStringValue attrName)
    else .error .expectedAttributeName
  | none => .error .expectedAttributeName

mutual

/-- Source `parseElement` (AST parser). -/
def parseElementT : Nat → PState → Except AErr (Node × PState)
  | 0, _ => .error .outOfFuel
  | fuel + 1, s => do
    let s1 ← expect s TokenTagOpen
    let (tok, s2) := peekT s1
    match tok with
    | none => .error (.expectedElementName "nil")
    | some t =>
      if t.kind ≠ TokenName then .error (.expectedElementName t.kind)
      else
        let elementName := t.value
        let s3 := advance s2
        attrLoopT fuel s3 elementName []

/-- Attribute loop of `parseElement` followed by the self-close / start
tag branch. -/
def attrLoopT : Nat → PState → String → List (String × Node) →
    Except AErr (Node × PState)
  | 0, _, _, _ => .error .outOfFuel
  | fuel + 1, s, elementName, properties =>
    let (tok, s1) := peekT s
    match tok with
    | some t =>
      if t.kind = TokenName then
        match parseAttribute s1 with
        | .error e => .error e
        | .ok (attrName, attrValue, s2) =>
          attrLoopT fuel s2 elementName
            (propSet properties ("@" ++ attrName) attrValue)
      else closeElementT fuel s1 elementName properties
    | none => .error (.unexpectedEndInElement elementName)

/-- Tail of `parseElement` after the attributes: self-closing branch, or
`>` content `</name>`. -/
def closeElementT : Nat → PState → String → List (String × Node) →
    Except AErr (Node × PState)
  | 0, _, _, _ => .error .outOfFuel
  | fuel + 1, s, elementName, properties =>
    let (tok, s1) := peekT s
    match tok with
    | none => .error (.unexpectedEndInElement elementName)
    | some t =>
      if t.kind = TokenTagSelfClose then
        .ok (.objN properties, advance s1)
      else do
        let s2 ← expect s1 TokenTagClose
        match parseContentT fuel s2 properties [] [] with
        | .error e => .error (.inElement elementName e)
        | .ok (props2, s3) =>
          match expect s3 TokenEndTagOpen with
          | .error e => .error (.expectedClosingTag elementName e)
          | .ok s4 =>
            let (tok4, s5) := peekT s4
            match tok4 with
            | none => .error .expectedNameInClosingTag
            | some t4 =>
              if t4.kind ≠ TokenName then .error .expectedNameInClosingTag
              else
                let closingName := t4.value
                let s6 := advance s5
                if closingName ≠ elementName then
                  .error (.mismatchedTags elementName closingName)
                else
                  match expect s6 TokenTagClose with
                  | .error e => .error (.expectedGtInClosingTag elementName e)
                  | .ok s7 => .ok (.objN props2, s7)

/-- Source `parseContent`: text, names-as-text, CDATA (skipped), child
elements keyed under the constant placeholder `"child"`, comments. -/
def parseContentT : Nat → PState → List (String × Node) →
    List String → List String →
    Except AErr (List (String × Node) × PState)
  | 0, _, _, _, _ => .error .outOfFuel
  | fuel + 1, s, properties, textParts, cdataParts =>
    let (tok, s1) := peekT s
    match tok with
    | none => .ok (properties, s1)
    | some t =>
      if ¬ s1.hasToken then .ok (properties, s1)
      else if t.kind = TokenEndTagOpen then
        let props1 :=
          if textParts.length > 0 then
            let trimmed := FastParser.trimSpace (String.join textParts)
            if trimmed ≠ "" then propSet properties "#text" (.litN trimmed)
            else properties
          else properties
        let props2 :=
          if cdataParts.length > 0 then
            propSet props1 "#cdata" (.litN (String.join cdataParts))
          else props1
        .ok (props2, s1)
      else if t.kind = TokenText then
        parseContentT fuel (advance s1) properties
          (textParts ++ [t.value]) cdataParts
      else if t.kind = TokenName then
        parseContentT fuel (advance s1) properties
          (textParts ++ [t.value]) cdataParts
      else if t.kind = TokenCDataStart then
        let s2 := advance s1
        let (tok2, s3) := peekT s2
        match tok2 with
        | none => .error .unterminatedCData
        | some _ =>
          if ¬ s3.hasToken then .error .unterminatedCData
          else parseContentT fuel (advance s3) properties textParts cdataParts
      else if t.kind = TokenTagOpen then
        let props1 :=
          if textParts.length > 0 then
            let trimmed := FastParser.trimSpace (String.join textParts)
            if trimmed ≠ "" then propSet properties "#text" (.litN trimmed)
            else properties
          else properties
        match parseElementT fuel s1 with
        | .error e => .error e
        | .ok (childNode, s2) =>
          let childKey := "child"
          let props2 :=
            match propGet props1 childKey with
            | some (.arrN elems) =>
              propSet props1 childKey (.arrN (elems ++ [childNode]))
            | some existing =>
              propSet props1 childKey (.arrN [existing, childNode])
            | none => propSet props1 childKey childNode
          parseContentT fuel s2 props2 [] cdataParts
      else if t.kind = TokenCommentStart then
        parseContentT fuel (skipCommentT fuel s1) properties textParts
          cdataParts
      else .error (.unexpectedTokenInContent t.kind)

end

/-- Source `Parse` (AST parser): optional XML declaration, leading
comments, one root element, trailing comments/whitespace, then the
stream must be at `EOF`. -/
def Parse (input : String) : Except AErr Node :=
  let fuel := 8 * input.length + 64
  let s0 := advance ⟨input.data, none, false, false⟩
  let declStep : Except AErr PState :=
    let (tok, s1) := peekT s0
    match tok with
    | some t =>
      if t.kind = TokenXMLDeclStart then skipXMLDeclarationT fuel s1
      else .ok s1
    | none => .ok s1
  match declStep with
  | .error e => .error e
  | .ok s2 =>
    let s3 := skipCommentsT fuel s2
    match parseElementT fuel s3 with
    | .error e => .error e
    | .ok (node, s4) =>
      let s5 := skipCommentsAndWhitespaceT fuel s4
      let (tok5, s6) := peekT s5
      match tok5 with
      | some t5 =>
        if s6.hasToken && t5.kind ≠ TokenEOF then .error .contentAfterRoot
        else .ok node
      | none => .ok node

end AstParser

namespace Render

open AstParser

/-- Byte-wise string comparison used by Go `sort.Strings`. -/
def strLtL : List Char → List Char → Bool
  | [], [] => false
  | [], _ :: _ => true
  | _ :: _, [] => false
  | a :: as, b :: bs => if a = b then strLtL as bs else decide (a < b)

def strLe (a b : String) : Bool := ! strLtL b.data a.data

/-- Insertion of a string into a sorted list (helper of `sortStrings`). -/
def insertSorted (x : String) : List String → List String
  | [] => [x]
  | y :: r => if strLe x y then x :: y :: r else y :: insertSorted x r

/-- Go `sort.Strings` (ascending byte-wise order). -/
def sortStrings : List String → List String
  | [] => []
  | x :: r => insertSorted x (sortStrings r)

/-- Go `strings.HasPrefix`. -/
def strHas (s pat : String) : Bool := FastParser.leadsWith pat.data s.data

/-- Concatenation of a list of strings (the successive buffer writes of
the renderer). -/
def joinAll : List String → String
  | [] => ""
  | s :: r => s ++ joinAll r

/-- Source `escapeXML` (`html.EscapeString`): `&` `'` `<` `>` `"` become
`&amp;` `&#39;` `&lt;` `&gt;` `&#34;`. -/
def escChar (c : Char) : String :=
  if c = '&' then "&amp;"
  else if c = '\'' then "&#39;"
  else if c = '<' then "&lt;"
  else if c = '>' then "&gt;"
  else if c = '"' then "&#34;"
  else String.mk [c]

def escapeXML (s : String) : String := String.join (s.data.map escChar)

/-- Attribute keys of a property map in emission order: the keys starting
with `@`, sorted (source `renderElement`, the `attrs` slice). -/
def attrKeysSorted (props : List (String × Node)) : List String :=
  sortStrings ((props.map Prod.fst).filter (fun k => strHas k "@"))

/-- Child keys in emission order: keys starting with neither `@` nor `#`,
sorted. -/
def childKeysSorted (props : List (String × Node)) : List String :=
  sortStrings ((props.map Prod.fst).filter
    (fun k => !strHas k "@" && !strHas k "#"))

/-- The attribute text emitted for one key (empty when the attribute node
is not a literal — the source's `if literal, ok := ...` check). -/
def attrChunk (props : List (String × Node)) (attrKey : String) : String :=
  match propGet props attrKey with
  | some (.litN v) =>
    " " ++ String.mk (attrKey.data.drop 1) ++ "=\"" ++ escapeXML v ++ "\""
  | _ => ""

/-- Indentation prefix written before an element when pretty-printing at
positive depth. -/
def indentChunk (prettyPrint : Bool) (pfx indent : String) (depth : Nat) :
    String :=
  if prettyPrint && depth > 0 then
    pfx ++ joinAll (List.replicate depth indent)
  else ""

mutual

/-- Source `renderNodeWithDepth`. -/
def renderNodeWithDepth : Nat → Option Node → Bool → String → String →
    Nat → String → String
  | 0, _, _, _, _, _, _ => ""
  | _ + 1, none, prettyPrint, pfx, indent, depth, elementName =>
    indentChunk prettyPrint pfx indent depth ++ "<" ++ elementName ++ "/>" ++
      (if prettyPrint then "\n" else "")
  | fuel + 1, some (.objN props), prettyPrint, pfx, indent, depth,
      elementName =>
    renderElement fuel props prettyPrint pfx indent depth elementName
  | fuel + 1, some (.arrN elems), prettyPrint, pfx, indent, depth,
      elementName =>
    joinAll (elems.map fun e =>
      renderNodeWithDepth fuel (some e) prettyPrint pfx indent depth
        elementName)
  | _ + 1, some (.litN v), prettyPrint, pfx, indent, depth, elementName =>
    indentChunk prettyPrint pfx indent depth ++ "<" ++ elementName ++ ">" ++
      escapeXML v ++ "</" ++ elementName ++ ">" ++
      (if prettyPrint then "\n" else "")

/-- Source `renderElement`: sorted attributes, text, CDATA, sorted child
elements, with the self-closing shortcut. -/
def renderElement : Nat → List (String × Node) → Bool → String → String →
    Nat → String → String
  | fuel, props, prettyPrint, pfx, indent, depth, elementName =>
    let ind := indentChunk prettyPrint pfx indent depth
    let attrs := attrKeysSorted props
    let attrStr := joinAll (attrs.map (attrChunk props))
    let headStr := ind ++ "<" ++ elementName ++ attrStr
    let textNode := propGet props "#text"
    let cdataNode := propGet props "#cdata"
    let childKeys := childKeysSorted props
    if textNode.isNone && cdataNode.isNone && childKeys.length = 0 then
      headStr ++ "/>" ++
        (if prettyPrint then "\n" else "")
    else
      let textStr :=
        match textNode with
        | some (.litN v) => escapeXML v
        | _ => ""
      let cdataStr :=
        match cdataNode with
        | some (.litN v) => "<![CDATA[" ++ v ++ "]]>"
        | _ => ""
      let childStr :=
        if childKeys.length > 0 then
          (if prettyPrint && textNode.isNone then "\n" else "") ++
          joinAll (childKeys.map fun childKey =>
            renderNodeWithDepth fuel (propGet props childKey) prettyPrint
              pfx indent (depth + 1) childKey) ++
          (if prettyPrint && textNode.isNone then
            pfx ++ joinAll (List.replicate depth indent) else "")
        else ""
      headStr ++ ">" ++ textStr ++ cdataStr ++
        childStr ++ "</" ++ elementName ++ ">" ++
        (if prettyPrint then "\n" else "")

end

mutual

/-- Fuel ample for any node: each level of tree nesting uses one unit. -/
def nodeFuel : Node → Nat
  | .objN props => 2 + nodeFuelProps props
  | .litN _ => 2
  | .arrN elems => 2 + nodeFuelList elems

def nodeFuelProps : List (String × Node) → Nat
  | [] => 0
  | (_, n) :: r => nodeFuel n + nodeFuelProps r

def nodeFuelList : List Node → Nat
  | [] => 0
  | n :: r => nodeFuel n + nodeFuelList r

end

/-- Source `Render`: compact rendering with root element name `root`. -/
def Render (node : Node) : String :=
  renderNodeWithDepth (nodeFuel node) (some node) false "" "" 0 "root"

/-- Source `RenderIndent`. -/
def RenderIndent (node : Node) (pfx indent : String) : String :=
  renderNodeWithDepth (nodeFuel node) (some node) true pfx indent 0 "root"

end Render

namespace Enc

/-- Role of a struct field derived from its `xml` tag (`fieldInfo` of the
tag-metadata helper: `attr`, `chardata`, `cdata`, or child element). -/
inductive Role where
  | attr
  | chardata
  | cdata
  | child
deriving DecidableEq, Repr

/-- Field metadata (`fieldInfo`): resolved XML name, role, `omitempty`
and skip flags. -/
structure FieldMeta where
  name : String
  role : Role
  omitEmpty : Bool
  skip : Bool
deriving DecidableEq, Repr

/-- Go values in the shapes the compiled encoders dispatch on: string,
integer, boolean, pointer (possibly nil), slice (nil or a list of
elements — the distinction is preserved), and struct with per-field
metadata. -/
inductive GoV where
  | vstr (s : String)
  | vint (n : Int)
  | vbool (b : Bool)
  | vptr (p : Option GoV)
  | vslice (elems : Option (List GoV))
  | vstruct (tname : String) (fields : List (FieldMeta × GoV))
deriving Repr

/-- Source `appendEscapeXML`: `&` `<` `>` `"` `'` become `&amp;` `&lt;`
`&gt;` `&#34;` `&#39;`; all other bytes are copied. -/
def escChar (c : Char) : String :=
  if c = '&' then "&amp;"
  else if c = '<' then "&lt;"
  else if c = '>' then "&gt;"
  else if c = '"' then "&#34;"
  else if c = '\'' then "&#39;"
  else String.mk [c]

def appendEscapeXML (s : String) : String := String.join (s.data.map escChar)

/-- Source `formatValue` (attribute values and chardata/CDATA content). -/
def formatValue : GoV → String
  | .vstr s => s
  | .vint n => toString n
  | .vbool b => if b then "true" else "false"
  | .vptr none => ""
  | .vptr (some v) => formatValue v
  | .vslice _ => ""
  | .vstruct _ _ => ""

/-- Source `isEmptyValue` (the `omitempty` test). -/
def isEmptyValue : GoV → Bool
  | .vstr s => s.length = 0
  | .vint n => n = 0
  | .vbool b => !b
  | .vptr p => p.isNone
  | .vslice none => true
  | .vslice (some l) => l.length = 0
  | .vstruct _ _ => false

/-- Insertion sort of attribute fields by name (the build-time
`sort.Slice(se.attrs, ...)`). -/
def insertAttr (x : FieldMeta × GoV) : List (FieldMeta × GoV) →
    List (FieldMeta × GoV)
  | [] => [x]
  | y :: r =>
    if Render.strLe x.1.name y.1.name then x :: y :: r
    else y :: insertAttr x r

def sortAttrs : List (FieldMeta × GoV) → List (FieldMeta × GoV)
  | [] => []
  | x :: r => insertAttr x (sortAttrs r)

/-- The not-skipped attribute fields, sorted by name (build-time
`se.attrs` of `buildXMLStructEncoder`). -/
def structAttrs (fields : List (FieldMeta × GoV)) : List (FieldMeta × GoV) :=
  sortAttrs ((fields.filter (fun f => !f.1.skip)).filter
    (fun f => f.1.role = Role.attr))

/-- The effective chardata field (`se.chardata`: the last chardata field
wins, as later loop iterations overwrite the reference). -/
def structChardata (fields : List (FieldMeta × GoV)) :
    Option (FieldMeta × GoV) :=
  ((fields.filter (fun f => !f.1.skip)).filter
    (fun f => f.1.role = Role.chardata)).getLast?

/-- The effective CDATA field (`se.cdata`). -/
def structCdata (fields : List (FieldMeta × GoV)) :
    Option (FieldMeta × GoV) :=
  ((fields.filter (fun f => !f.1.skip)).filter
    (fun f => f.1.role = Role.cdata)).getLast?

/-- The `hasContent` test of the struct encoder closure. -/
def structHasContent (fields : List (FieldMeta × GoV)) : Bool :=
  (match structChardata fields with
   | some f => formatValue f.2 ≠ ""
   | none => false) ||
  (match structCdata fields with
   | some f => formatValue f.2 ≠ ""
   | none => false) ||
  ((fields.filter (fun f => !f.1.skip)).filter
    (fun f => f.1.role = Role.child)).any
    (fun f => !(f.1.omitEmpty && isEmptyValue f.2))

/-- The attribute text of the struct encoder closure (attributes whose
formatted value is empty are not written). -/
def attrsText (attrs : List (FieldMeta × GoV)) : String :=
  String.join (attrs.map fun f =>
    let attrVal := formatValue f.2
    if attrVal ≠ "" then
      " " ++ f.1.name ++ "=\"" ++ appendEscapeXML attrVal ++ "\""
    else "")

/-- The chardata text written inside the element. -/
def chardataText (chardataF : Option (FieldMeta × GoV)) : String :=
  match chardataF with
  | some f =>
    let val := formatValue f.2
    if val ≠ "" then appendEscapeXML val else ""
  | none => ""

/-- The CDATA text written inside the element. -/
def cdataText (cdataF : Option (FieldMeta × GoV)) : String :=
  match cdataF with
  | some f =>
    let val := formatValue f.2
    if val ≠ "" then "<![CDATA[" ++ val ++ "]]>" else ""
  | none => ""

mutual

/-- Run-time behaviour of the compiled encoders (`xmlStringEnc`,
`xmlIntEnc`, `xmlBoolEnc`, `buildXMLPtrEncoder`, `buildXMLSliceEncoder`,
`buildXMLStructEncoder`): the build-time/run-time split of the encoder
compiler collapses to a value-directed traversal whose branches mirror
the respective closure bodies. -/
def encodeValue : GoV → String → String
  | .vstr s, elemName =>
    "<" ++ elemName ++ ">" ++ appendEscapeXML s ++ "</" ++ elemName ++ ">"
  | .vint n, elemName =>
    "<" ++ elemName ++ ">" ++ toString n ++ "</" ++ elemName ++ ">"
  | .vbool b, elemName =>
    "<" ++ elemName ++ ">" ++ (if b then "true" else "false") ++ "</" ++
      elemName ++ ">"
  | .vptr none, elemName => "<" ++ elemName ++ "/>"
  | .vptr (some v), elemName => encodeValue v elemName
  | .vslice none, elemName => "<" ++ elemName ++ "/>"
  | .vslice (some elems), elemName => encodeSliceElems elems elemName
  | .vstruct _ fields, elemName =>
    let attrStr := attrsText (structAttrs fields)
    if !(structHasContent fields) then "<" ++ elemName ++ attrStr ++ "/>"
    else
      "<" ++ elemName ++ attrStr ++ ">" ++
        chardataText (structChardata fields) ++
        cdataText (structCdata fields) ++
        encodeChildren fields ++ "</" ++ elemName ++ ">"

/-- Per-item loop of the slice/array encoders: every element is encoded
under the same element name. -/
def encodeSliceElems : List GoV → String → String
  | [], _ => ""
  | v :: r, elemName => encodeValue v elemName ++ encodeSliceElems r elemName

/-- Child-element loop of the struct encoder over the full field list
(the build-time filtering of skipped and non-child fields is inlined:
such fields contribute nothing, and `omitempty`-empty children are
skipped as in the run-time loop). -/
def encodeChildren : List (FieldMeta × GoV) → String
  | [] => ""
  | (fm, fv) :: r =>
    (if fm.skip || fm.role ≠ Role.child || (fm.omitEmpty && isEmptyValue fv)
     then ""
     else encodeValue fv fm.name) ++ encodeChildren r

end

/-- Body of the struct encoder closure, as a standalone function (equal
by definition to the `vstruct` branch of `encodeValue`). -/
def encodeStructBody (fields : List (FieldMeta × GoV)) (elemName : String) :
    String :=
  let attrStr := attrsText (structAttrs fields)
  if !(structHasContent fields) then "<" ++ elemName ++ attrStr ++ "/>"
  else
    "<" ++ elemName ++ attrStr ++ ">" ++
      chardataText (structChardata fields) ++
      cdataText (structCdata fields) ++
      encodeChildren fields ++ "</" ++ elemName ++ ">"

theorem encodeValue_vstruct (tname : String)
    (fields : List (FieldMeta × GoV)) (elemName : String) :
    encodeValue (.vstruct tname fields) elemName =
      encodeStructBody fields elemName := rfl

/-- Top-level pointer unwrapping of `Marshal` (`for rv.Kind() ==
reflect.Ptr`), yielding `none` when a nil pointer is reached. -/
def unwrapPtr : GoV → Option GoV
  | .vptr none => none
  | .vptr (some v) => unwrapPtr v
  | v => some v

/-- Source `Marshal` (compiled-encoder path of `pkg/xml/marshal.go`):
unwrap pointers, pick the root element name from the struct type name,
and run the encoder. -/
def Marshal (v : GoV) : String :=
  match unwrapPtr v with
  | none => "<root/>"
  | some rv =>
    let rootName :=
      match rv with
      | .vstruct tname _ => if tname ≠ "" then tname else "root"
      | _ => "root"
    encodeValue rv rootName

/-- Source `MarshalIndent`: the body is a single call to `Marshal`; the
prefix and indent parameters are not consulted. -/
def MarshalIndent (v : GoV) (pfx indent : String) : String := Marshal v

end Enc

namespace FastUnmarshal

open FastParser

/-- Decode targets modelled for the fast-path `unmarshalValue`: a string
field or a struct with tagged fields (Go field name, `xml` tag, field
type). -/
inductive UTy where
  | tyStr
  | tyStruct (fields : List (String × String × UTy))
deriving Repr

/-- Decoded values. -/
inductive UVal where
  | ustr (s : String)
  | ustructV (fields : List (String × UVal))
deriving Repr

/-- The field-map key computed by `unmarshalStruct`'s inline tag parsing:
`@name` for `attr` fields, `#text` for `chardata` fields, the tag name
or the Go field name otherwise; `none` for tag `-`. -/
def fieldXmlKey (fname tag : String) : Option String :=
  if tag = "-" then none
  else if tag = "" then some fname
  else
    let l := tag.data
    match l.findIdx? (· = ',') with
    | some idx =>
      let xmlName := if idx > 0 then String.mk (l.take idx) else fname
      let remainder := String.mk (l.drop (idx + 1))
      if remainder = "attr" then some ("@" ++ xmlName)
      else if remainder = "chardata" then some "#text"
      else some xmlName
    | none => some tag

mutual

/-- Source `extractTextContent` (the `v["#text"]` lookup is inlined as a
walk over the association list). -/
def extractTextContent : NV → String
  | .s v => v
  | .obj m => extractTextOf m
  | .arr _ => ""

def extractTextOf : List (String × NV) → String
  | [] => ""
  | (k, v) :: r => if k = "#text" then extractTextContent v else extractTextOf r

end

mutual

/-- Zero value of a decode target (fields of the struct start at their
Go zero values and are only overwritten for matching keys). -/
def zeroVal : UTy → UVal
  | .tyStr => .ustr ""
  | .tyStruct fields => .ustructV (zeroFields fields)

def zeroFields : List (String × String × UTy) → List (String × UVal)
  | [] => []
  | (fname, _, fty) :: r => (fname, zeroVal fty) :: zeroFields r

end

/-- Update one named field of a decoded struct value. -/
def setField (l : List (String × UVal)) (fname : String) (v : UVal) :
    List (String × UVal) :=
  l.map fun p => if p.1 = fname then (p.1, v) else p

mutual

/-- Source `unmarshalValue` of `internal/fastparser/unmarshal.go`,
restricted to string and struct targets: a map source with a string
target goes through `extractTextContent`; a map source with a struct
target goes through `unmarshalStruct`; an array source or a
string-into-struct combination is a decode error. No entity decoding
happens anywhere on this path. -/
def unmarshalValue : Nat → NV → UTy → Except String UVal
  | 0, _, _ => .error "out of fuel"
  | _ + 1, .obj m, .tyStr => .ok (.ustr (extractTextContent (.obj m)))
  | fuel + 1, .obj m, .tyStruct fields =>
    unmarshalStructLoop fuel m fields (zeroFields fields)
  | _ + 1, .arr _, _ => .error "xml: cannot unmarshal array into Go value"
  | _ + 1, .s v, .tyStr => .ok (.ustr v)
  | _ + 1, .s _, .tyStruct _ =>
    .error "xml: cannot unmarshal string into Go value of type struct"

/-- Population loop of `unmarshalStruct`: for every key of the parsed
map that the field map knows, decode into that field. -/
def unmarshalStructLoop : Nat → List (String × NV) →
    List (String × String × UTy) → List (String × UVal) →
    Except String UVal
  | 0, _, _, _ => .error "out of fuel"
  | _ + 1, [], _, acc => .ok (.ustructV acc)
  | fuel + 1, (k, v) :: rest, fields, acc =>
    match fields.find? (fun f => fieldXmlKey f.1 f.2.1 = some k) with
    | some (fname, _, fty) =>
      match unmarshalValue fuel v fty with
      | .error e => .error e
      | .ok uv => unmarshalStructLoop fuel rest fields (setField acc fname uv)
    | none => unmarshalStructLoop fuel rest fields acc

end

/-- Source `Unmarshal` (fast path): parse the bytes with the fast parser
and decode the resulting native value into the target. -/
def Unmarshal (data : String) (ty : UTy) : Except String UVal :=
  match FastParser.Parse data.data with
  | .error _ => .error "parse error"
  | .ok v => unmarshalValue (40 + data.length) v ty

end FastUnmarshal

namespace XmlPkg

/-- Source `Parse` of `pkg/xml`: run the AST parser. -/
def Parse (input : String) : Except AstParser.AErr AstParser.Node :=
  AstParser.Parse input

/-- Source `Validate` of `pkg/xml`: run the fast parser and discard the
value, keeping only the error. -/
def Validate (input : String) : Option FastParser.Err :=
  match FastParser.Parse input.data with
  | .error e => some e
  | .ok _ => none

end XmlPkg

/-- C1 (counterexample): the claim "validate(X) succeeds iff parse(X)
succeeds, for every X" is false at `X = "<a>x=y</a>"`: the fast-path
validator accepts it (text content is scanned up to the next `<`), while
the AST parser's tokenizer emits an `Equals` token for the bare `=`,
which `parseContent` rejects. -/
theorem c1_validate_parse_disagree_at_input :
    XmlPkg.Validate "<a>x=y</a>" = none ∧
    (XmlPkg.Parse "<a>x=y</a>").isOk = false := by
  exact ⟨rfl, rfl⟩

/-- C1 (amended): validate/parse agreement does not hold universally:
there is an input accepted by `Validate` and rejected by `Parse` (element
content containing a bare `=`); the two paths do still agree on simple
well-formed and malformed samples. -/
theorem c1_validate_parse_agreement_amended :
    (∃ s, XmlPkg.Validate s = none ∧ (XmlPkg.Parse s).isOk = false) ∧
    (XmlPkg.Validate "<user id=\"123\">Alice</user>" = none ∧
      (XmlPkg.Parse "<user id=\"123\">Alice</user>").isOk = true) ∧
    ((XmlPkg.Validate "<unclosed").isSome = true ∧
      (XmlPkg.Parse "<unclosed").isOk = false) := by
  exact ⟨⟨"<a>x=y</a>", rfl, rfl⟩, ⟨rfl, rfl⟩, ⟨rfl, rfl⟩⟩

/-- C2 (code evaluated at the failing input): the AST parser stores every
child element under the constant placeholder key `"child"` instead of its
actual tag name; parsing `<r><x>1</x><y>2</y></r>` yields an object whose
only key is `"child"`, bound to an Array of the two (differently named)
children, and lookups of `"x"`/`"y"` find nothing. -/
theorem c2_ast_children_under_placeholder_key :
    AstParser.Parse "<r><x>1</x><y>2</y></r>" =
      .ok (.objN [("child", .arrN
        [.objN [("#text", .litN "1")], .objN [("#text", .litN "2")]])]) ∧
    AstParser.propGet
      [("child", AstParser.Node.arrN
        [.objN [("#text", .litN "1")], .objN [("#text", .litN "2")]])]
      "x" = none ∧
    AstParser.propGet
      [("child", AstParser.Node.arrN
        [.objN [("#text", .litN "1")], .objN [("#text", .litN "2")]])]
      "y" = none := by
  exact ⟨rfl, rfl, rfl⟩

/-- C3 (counterexample): marshaling a struct whose string field holds
the five characters escapes all five in the output, but unmarshaling
that output decodes the field to the escaped text, not the original
string — the fast-path `parseText` performs no entity decoding. -/
theorem c3_roundtrip_does_not_unescape :
    Enc.Marshal (.vstruct "T"
      [(⟨"f", Enc.Role.child, false, false⟩, .vstr "<>&\"'")]) =
      "<T><f>&lt;&gt;&amp;&#34;&#39;</f></T>" ∧
    FastUnmarshal.Unmarshal "<T><f>&lt;&gt;&amp;&#34;&#39;</f></T>"
      (.tyStruct [("F", "f", .tyStr)]) =
      .ok (.ustructV [("F", .ustr "&lt;&gt;&amp;&#34;&#39;")]) ∧
    "&lt;&gt;&amp;&#34;&#39;" ≠ "<>&\"'" := by
  refine ⟨rfl, rfl, by decide⟩

/-- C3 (amended): all five characters appear escaped in the marshal
output, and parsing that output back yields the field bound verbatim to
the escaped representation (no entity decoding on the fast path). -/
theorem c3_escapes_emitted_roundtrip_verbatim :
    ("&amp;".data <:+:
      (Enc.Marshal (.vstruct "T"
        [(⟨"f", Enc.Role.child, false, false⟩, .vstr "<>&\"'")])).data) ∧
    ("&lt;".data <:+:
      (Enc.Marshal (.vstruct "T"
        [(⟨"f", Enc.Role.child, false, false⟩, .vstr "<>&\"'")])).data) ∧
    ("&gt;".data <:+:
      (Enc.Marshal (.vstruct "T"
        [(⟨"f", Enc.Role.child, false, false⟩, .vstr "<>&\"'")])).data) ∧
    ("&#34;".data <:+:
      (Enc.Marshal (.vstruct "T"
        [(⟨"f", Enc.Role.child, false, false⟩, .vstr "<>&\"'")])).data) ∧
    ("&#39;".data <:+:
      (Enc.Marshal (.vstruct "T"
        [(⟨"f", Enc.Role.child, false, false⟩, .vstr "<>&\"'")])).data) ∧
    FastUnmarshal.Unmarshal
      (Enc.Marshal (.vstruct "T"
        [(⟨"f", Enc.Role.child, false, false⟩, .vstr "<>&\"'")]))
      (.tyStruct [("F", "f", .tyStr)]) =
      .ok (.ustructV [("F", .ustr "&lt;&gt;&amp;&#34;&#39;")]) := by
  refine ⟨by decide, by decide, by decide, by decide, by decide, rfl⟩

/-- C4: on the fast path, parsing `<r><c>1</c><c>2</c></r>` binds the
root's key `c` to a two-element array holding the two child values in
encounter order — the child with text `"1"` first, then the child with
text `"2"`. -/
theorem c4_fast_duplicate_children_coalesced :
    FastParser.Parse "<r><c>1</c><c>2</c></r>".data =
      .ok (.obj [("c", .arr
        [.obj [("#text", .s "1")], .obj [("#text", .s "2")]])]) ∧
    FastParser.mapGet
      [("c", FastParser.NV.arr
        [.obj [("#text", .s "1")], .obj [("#text", .s "2")]])] "c" =
      some (.arr [.obj [("#text", .s "1")], .obj [("#text", .s "2")]]) := by
  exact ⟨rfl, rfl⟩

/-- C8: parsing `<a><b></a></b>` fails in both parsers, and in both the
error identifies the two tag names `a` and `b` (the fast parser reports
opening `b` / closing `a` wrapped in element `a`; the AST parser reports
the same structure). -/
theorem c8_mismatched_tags_error_names_both :
    FastParser.Parse "<a><b></a></b>".data =
      .error (.inElement "a" (.mismatchedTags "b" "a" 9)) ∧
    AstParser.Parse "<a><b></a></b>" =
      .error (.inElement "a" (.mismatchedTags "b" "a")) ∧
    "a" ∈ FastParser.Err.tagNames
      (.inElement "a" (.mismatchedTags "b" "a" 9)) ∧
    "b" ∈ FastParser.Err.tagNames
      (.inElement "a" (.mismatchedTags "b" "a" 9)) ∧
    "a" ∈ AstParser.AErr.tagNames
      (.inElement "a" (.mismatchedTags "b" "a")) ∧
    "b" ∈ AstParser.AErr.tagNames
      (.inElement "a" (.mismatchedTags "b" "a")) := by
  refine ⟨rfl, rfl, by decide, by decide, by decide, by decide⟩

/-- C9 (counterexample): the rune fallback name scanner rejects
`é` (U+00E9, a Unicode letter): it is neither a name-start nor a name
character for the tokenizer, and `nameMatcherRune` fails on a name
beginning with it, contradicting the claim that any properly-encoded
Unicode letter is accepted. -/
theorem c9_unicode_letter_rejected :
    XmlTok.isNameStartChar (Char.ofNat 0xE9) = false ∧
    XmlTok.isNameChar (Char.ofNat 0xE9) = false ∧
    XmlTok.nameMatcherRune [Char.ofNat 0xE9, 'a', 'b'] = none := by
  exact ⟨rfl, rfl, rfl⟩

/-- C9 (amended): the rune fallback name classifiers accept only ASCII —
every character at or above U+0080 (in particular every multi-byte
Unicode letter) is rejected both as a name-start and as a
name-continuation character. -/
theorem c9_fallback_scanner_ascii_only (r : Char) (h : 0x80 ≤ r.toNat) :
    XmlTok.isNameStartChar r = false ∧ XmlTok.isNameChar r = false := by
  have hA : ∀ (c : Char), c.toNat ≤ 0x7a → ¬ (r ≤ c) := by
    intro c hc hle
    have := Char.le_def.mp hle
    have hrn : r.toNat ≤ c.toNat := this
    omega
  have h1 : XmlTok.isNameStartChar r = false := by
    unfold XmlTok.isNameStartChar
    have hz : ¬ (r ≤ 'Z') := hA 'Z' (by decide)
    have hzl : ¬ (r ≤ 'z') := hA 'z' (by decide)
    have hu : r ≠ '_' := by
      intro he; subst he; simp at h
    have hcol : r ≠ ':' := by
      intro he; subst he; simp at h
    simp [hz, hzl, hu, hcol]
  refine ⟨h1, ?_⟩
  unfold XmlTok.isNameChar
  have h9 : ¬ (r ≤ '9') := hA '9' (by decide)
  have hdot : r ≠ '.' := by intro he; subst he; simp at h
  have hdash : r ≠ '-' := by intro he; subst he; simp at h
  simp [h1, h9, hdot, hdash]

/-- C9 (witness for the amended theorem at U+00E9). -/
theorem c9_fallback_scanner_ascii_only_witness :
    0x80 ≤ (Char.ofNat 0xE9).toNat ∧
    (XmlTok.isNameStartChar (Char.ofNat 0xE9) = false ∧
      XmlTok.isNameChar (Char.ofNat 0xE9) = false) :=
  ⟨by decide, c9_fallback_scanner_ascii_only (Char.ofNat 0xE9) (by decide)⟩

/-- C10: `MarshalIndent` returns byte-for-byte the same output as
`Marshal` for every value and all prefix/indent arguments — the body of
the source function is a single call to `Marshal`, ignoring both
arguments. -/
theorem c10_marshalIndent_ignores_indentation
    (v : Enc.GoV) (pfx indent pfx2 indent2 : String) :
    Enc.MarshalIndent v pfx indent = Enc.Marshal v ∧
    Enc.MarshalIndent v pfx indent = Enc.MarshalIndent v pfx2 indent2 :=
  ⟨rfl, rfl⟩


namespace Render

theorem strLtL_asymm : ∀ a b : List Char,
    strLtL a b = true → strLtL b a = false := by
  intro a
  induction a with
  | nil =>
    intro b _
    cases b with
    | nil => rfl
    | cons z bs => rfl
  | cons x xs ih =>
    intro b hab
    cases b with
    | nil => simp [strLtL] at hab
    | cons y ys =>
      simp only [strLtL] at hab ⊢
      by_cases hxy : x = y
      · subst hxy
        simp only [if_pos rfl] at hab ⊢
        exact ih ys hab
      · have hyx : y ≠ x := fun h => hxy h.symm
        simp only [if_neg hxy] at hab
        simp only [if_neg hyx, decide_eq_false_iff_not]
        have hlt : x < y := of_decide_eq_true hab
        exact fun hcon => absurd hlt (not_lt_of_gt hcon)

theorem strLtL_cases : ∀ c a b : List Char,
    strLtL c a = true → strLtL c b = true ∨ strLtL b a = true := by
  intro c
  induction c with
  | nil =>
    intro a b hca
    cases a with
    | nil => simp [strLtL] at hca
    | cons y as =>
      cases b with
      | nil => right; simp [strLtL]
      | cons z bs => left; simp [strLtL]
  | cons x cs ih =>
    intro a b hca
    cases a with
    | nil => simp [strLtL] at hca
    | cons y as =>
      cases b with
      | nil => right; simp [strLtL]
      | cons z bs =>
        simp only [strLtL] at hca ⊢
        rcases lt_trichotomy x z with hxz | hxz | hxz
        · left
          have hne : x ≠ z := ne_of_lt hxz
          simp [hne, hxz]
        · subst hxz
          by_cases hxy : x = y
          · subst hxy
            simp only [if_pos rfl] at hca ⊢
            exact ih as bs hca
          · right
            have hxylt : x < y :=
              of_decide_eq_true (by simpa [if_neg hxy] using hca)
            have hne : x ≠ y := hxy
            simp [hne, hxylt]
        · right
          by_cases hxy : x = y
          · subst hxy
            have hne : z ≠ x := ne_of_lt hxz
            simp [hne, hxz]
          · have hxylt : x < y :=
              of_decide_eq_true (by simpa [if_neg hxy] using hca)
            have hzy : z < y := lt_trans hxz hxylt
            have hne : z ≠ y := ne_of_lt hzy
            simp [hne, hzy]

theorem strLe_total (a b : String) : strLe a b = true ∨ strLe b a = true := by
  by_cases h : strLtL b.data a.data = true
  · right
    have := strLtL_asymm _ _ h
    simp [strLe, this]
  · left
    simp only [Bool.not_eq_true] at h
    simp [strLe, h]

theorem strLe_trans {a b c : String} (hab : strLe a b = true)
    (hbc : strLe b c = true) : strLe a c = true := by
  simp only [strLe, Bool.not_eq_true'] at hab hbc ⊢
  by_contra hcon
  have hca : strLtL c.data a.data = true := by
    cases h : strLtL c.data a.data
    · exact absurd h hcon
    · rfl
  rcases strLtL_cases c.data a.data b.data hca with h | h
  · exact absurd (h.symm.trans hbc) (by decide)
  · exact absurd (h.symm.trans hab) (by decide)

theorem mem_insertSorted {b x : String} : ∀ l : List String,
    b ∈ insertSorted x l ↔ b = x ∨ b ∈ l := by
  intro l
  induction l with
  | nil => simp [insertSorted]
  | cons y r ih =>
    simp only [insertSorted]
    by_cases h : strLe x y = true
    · rw [if_pos h]
      simp only [List.mem_cons]
    · rw [if_neg h]
      simp only [List.mem_cons, ih]
      tauto

theorem pairwise_insertSorted {x : String} : ∀ l : List String,
    l.Pairwise (fun a b => strLe a b = true) →
    (insertSorted x l).Pairwise (fun a b => strLe a b = true) := by
  intro l
  induction l with
  | nil =>
    intro _
    simp [insertSorted]
  | cons y r ih =>
    intro hp
    rcases List.pairwise_cons.mp hp with ⟨hy, hr⟩
    simp only [insertSorted]
    by_cases h : strLe x y = true
    · rw [if_pos h]
      refine List.pairwise_cons.mpr ⟨?_, hp⟩
      intro z hz
      rcases List.mem_cons.mp hz with hzy | hzr
      · subst hzy; exact h
      · exact strLe_trans h (hy z hzr)
    · rw [if_neg h]
      refine List.pairwise_cons.mpr ⟨?_, ih hr⟩
      intro z hz
      rcases (mem_insertSorted r).mp hz with hzx | hzr
      · rw [hzx]
        rcases strLe_total x y with h1 | h1
        · exact absurd h1 h
        · exact h1
      · exact hy z hzr

theorem mem_sortStrings {b : String} : ∀ l : List String,
    b ∈ sortStrings l ↔ b ∈ l := by
  intro l
  induction l with
  | nil => simp [sortStrings]
  | cons y r ih =>
    simp only [sortStrings, mem_insertSorted, List.mem_cons, ih]

theorem pairwise_sortStrings : ∀ l : List String,
    (sortStrings l).Pairwise (fun a b => strLe a b = true) := by
  intro l
  induction l with
  | nil => simp [sortStrings]
  | cons y r ih => exact pairwise_insertSorted _ ih

theorem joinAll_cons (s : String) (r : List String) :
    (joinAll (s :: r)).data = s.data ++ (joinAll r).data := by
  simp [joinAll, String.data_append]

theorem infix_joinAll_map {k : String} (f : String → String) :
    ∀ l : List String, k ∈ l → (f k).data <:+: (joinAll (l.map f)).data := by
  intro l
  induction l with
  | nil => intro h; simp at h
  | cons y r ih =>
    intro hk
    rcases List.mem_cons.mp hk with hky | hkr
    · subst hky
      refine ⟨[], (joinAll (r.map f)).data, ?_⟩
      simp [joinAll_cons]
    · rcases ih hkr with ⟨s, t, hst⟩
      refine ⟨(f y).data ++ s, t, ?_⟩
      simp only [List.map_cons, joinAll_cons, List.append_assoc, hst]

theorem propGet_of_mem_nodup {k : String} {n : AstParser.Node} :
    ∀ props : List (String × AstParser.Node),
    (props.map Prod.fst).Nodup → (k, n) ∈ props →
    AstParser.propGet props k = some n := by
  intro props
  induction props with
  | nil => intro _ h; simp at h
  | cons p r ih =>
    intro hnd hmem
    rcases List.mem_cons.mp hmem with hp | hr
    · subst hp
      simp [AstParser.propGet]
    · obtain ⟨p1, p2⟩ := p
      simp only [List.map_cons, List.nodup_cons] at hnd
      have hne : p1 ≠ k := by
        intro he
        subst he
        exact hnd.1 (List.mem_map.mpr ⟨(p1, n), hr, rfl⟩)
      simp only [AstParser.propGet, if_neg hne]
      exact ih hnd.2 hr

theorem mem_attrKeysSorted_iff {k : String}
    (props : List (String × AstParser.Node)) :
    k ∈ attrKeysSorted props ↔
      k ∈ props.map Prod.fst ∧ strHas k "@" = true := by
  unfold attrKeysSorted
  rw [mem_sortStrings, List.mem_filter]

theorem strHas_at_data {k : String} (h : strHas k "@" = true) :
    ∃ rest, k.data = '@' :: rest := by
  have hat : "@".data = ['@'] := rfl
  unfold strHas at h
  rw [hat] at h
  cases hk : k.data with
  | nil => rw [hk] at h; simp [FastParser.leadsWith] at h
  | cons c rest =>
    rw [hk] at h
    simp only [FastParser.leadsWith, Bool.and_eq_true, decide_eq_true_eq] at h
    exact ⟨rest, by rw [h.1]⟩

theorem strLe_dropHead {a b : String} (ha : strHas a "@" = true)
    (hb : strHas b "@" = true) (hle : strLe a b = true) :
    strLe (String.mk (a.data.drop 1)) (String.mk (b.data.drop 1)) = true := by
  rcases strHas_at_data ha with ⟨as, hadata⟩
  rcases strHas_at_data hb with ⟨bs, hbdata⟩
  simp only [strLe, hadata, hbdata, Bool.not_eq_true'] at hle ⊢
  simpa [strLtL] using hle

/-- A string is an infix of text to which it is appended at the end. -/
theorem suffix_infix (a b : String) : b.data <:+: (a ++ b).data :=
  ⟨a.data, [], by simp [String.data_append]⟩

/-- An infix of a string stays an infix after appending on the right. -/
theorem infix_append_right {x : List Char} {a b : String}
    (h : x <:+: a.data) : x <:+: (a ++ b).data := by
  rcases h with ⟨s, t, hst⟩
  exact ⟨s, t ++ b.data, by rw [String.data_append, ← hst]; simp⟩

/-- Whatever the branch taken, the rendered element text contains the
sorted attribute chunks: both branches of `renderElement` first write the
indent, `<`, the element name and the attribute block. -/
theorem attrBlock_infix_renderElement
    (fuel : Nat) (props : List (String × AstParser.Node)) (pretty : Bool)
    (pfx ind name : String) (depth : Nat) :
    (joinAll ((attrKeysSorted props).map (attrChunk props))).data <:+:
      (renderElement fuel props pretty pfx ind depth name).data := by
  rw [renderElement]
  dsimp only
  split
  · repeat first | exact suffix_infix _ _ | apply infix_append_right
  · repeat first | exact suffix_infix _ _ | apply infix_append_right

end Render

/-- C7: the renderer emits an Object node's `@`-prefixed properties as
attributes in sorted order — the emitted key list is pairwise ordered,
and so is the list of attribute names with the `@` stripped — no
`@`-key (in particular no `@xmlns*` key) is missing from that list, each
listed key's attribute text occurs in the rendered output, and for a
literal-valued attribute that text is the full ` name="escaped"` chunk,
never silently dropped. -/
theorem c7_render_attributes_sorted_never_dropped
    (props : List (String × AstParser.Node)) (pretty : Bool)
    (pfx ind name : String) (depth fuel : Nat)
    (hnd : (props.map Prod.fst).Nodup) :
    (Render.attrKeysSorted props).Pairwise
      (fun a b => Render.strLe a b = true) ∧
    ((Render.attrKeysSorted props).map
      (fun k => String.mk (k.data.drop 1))).Pairwise
      (fun a b => Render.strLe a b = true) ∧
    (∀ k n, (k, n) ∈ props → Render.strHas k "@" = true →
      k ∈ Render.attrKeysSorted props) ∧
    (∀ k, k ∈ Render.attrKeysSorted props →
      (Render.attrChunk props k).data <:+:
        (Render.renderElement fuel props pretty pfx ind depth name).data) ∧
    (∀ k v, (k, AstParser.Node.litN v) ∈ props →
      Render.strHas k "@" = true →
      Render.attrChunk props k =
        " " ++ String.mk (k.data.drop 1) ++ "=\"" ++
          Render.escapeXML v ++ "\"") := by
  refine ⟨Render.pairwise_sortStrings _, ?_, ?_, ?_, ?_⟩
  · rw [List.pairwise_map]
    refine (Render.pairwise_sortStrings _).imp_of_mem ?_
    intro a b ha hb hle
    have haa : Render.strHas a "@" = true :=
      ((Render.mem_attrKeysSorted_iff props).mp ha).2
    have hbb : Render.strHas b "@" = true :=
      ((Render.mem_attrKeysSorted_iff props).mp hb).2
    exact Render.strLe_dropHead haa hbb hle
  · intro k n hmem hat
    exact (Render.mem_attrKeysSorted_iff props).mpr
      ⟨List.mem_map.mpr ⟨(k, n), hmem, rfl⟩, hat⟩
  · intro k hk
    exact (Render.infix_joinAll_map (Render.attrChunk props) _ hk).trans
      (Render.attrBlock_infix_renderElement fuel props pretty pfx ind name
        depth)
  · intro k v hmem _
    unfold Render.attrChunk
    rw [Render.propGet_of_mem_nodup props hnd hmem]

/-- C7 (witness): a concrete Object node carrying an `xmlns:a` namespace
attribute alongside an ordinary attribute and text content. -/
theorem c7_render_attributes_witness :
    ([("@z", AstParser.Node.litN "1"), ("@xmlns:a", AstParser.Node.litN "u"),
      ("#text", AstParser.Node.litN "t")].map Prod.fst).Nodup ∧
    (("@xmlns:a" ∈ Render.attrKeysSorted
      [("@z", AstParser.Node.litN "1"), ("@xmlns:a", AstParser.Node.litN "u"),
       ("#text", AstParser.Node.litN "t")]) ∧
     (Render.attrChunk
      [("@z", AstParser.Node.litN "1"), ("@xmlns:a", AstParser.Node.litN "u"),
       ("#text", AstParser.Node.litN "t")] "@xmlns:a").data <:+:
      (Render.renderElement 4
        [("@z", AstParser.Node.litN "1"), ("@xmlns:a", AstParser.Node.litN "u"),
         ("#text", AstParser.Node.litN "t")] false "" "" 0 "e").data) := by
  have hmem : ("@xmlns:a", AstParser.Node.litN "u") ∈
      [("@z", AstParser.Node.litN "1"), ("@xmlns:a", AstParser.Node.litN "u"),
       ("#text", AstParser.Node.litN "t")] :=
    List.mem_cons_of_mem _ (List.mem_cons_self _ _)
  have h := c7_render_attributes_sorted_never_dropped
    [("@z", AstParser.Node.litN "1"), ("@xmlns:a", AstParser.Node.litN "u"),
     ("#text", AstParser.Node.litN "t")] false "" "" "e" 0 4 (by decide)
  have hks := h.2.2.1 "@xmlns:a" (AstParser.Node.litN "u") hmem (by decide)
  exact ⟨by decide, hks, h.2.2.2.1 "@xmlns:a" hks⟩

namespace Enc

theorem str_empty_append (s : String) : "" ++ s = s :=
  String.ext (by rw [String.data_append]; rfl)

theorem str_append_assoc (a b c : String) : a ++ b ++ c = a ++ (b ++ c) :=
  String.ext (by simp [String.data_append])

theorem encodeChildren_append : ∀ a b : List (FieldMeta × GoV),
    encodeChildren (a ++ b) = encodeChildren a ++ encodeChildren b := by
  intro a b
  induction a with
  | nil => simp [encodeChildren, str_empty_append]
  | cons x r ih =>
    obtain ⟨fm, fv⟩ := x
    simp only [List.cons_append, encodeChildren, str_append_assoc]
    exact congrArg (_ ++ ·) ih

theorem notSkip_filter_middle (pre post : List (FieldMeta × GoV))
    (fm : FieldMeta) (X : GoV) (h : fm.skip = false) :
    (pre ++ (fm, X) :: post).filter (fun f => !f.1.skip) =
      pre.filter (fun f => !f.1.skip) ++
        (fm, X) :: post.filter (fun f => !f.1.skip) := by
  simp [List.filter_append, List.filter_cons, h]

theorem structAttrs_middle_indep (pre post : List (FieldMeta × GoV))
    (fm : FieldMeta) (X Y : GoV) (h1 : fm.skip = false)
    (h2 : fm.role = Role.child) :
    structAttrs (pre ++ (fm, X) :: post) =
      structAttrs (pre ++ (fm, Y) :: post) := by
  unfold structAttrs
  rw [notSkip_filter_middle pre post fm X h1,
    notSkip_filter_middle pre post fm Y h1]
  simp [List.filter_append, List.filter_cons, h2]

theorem structChardata_middle_indep (pre post : List (FieldMeta × GoV))
    (fm : FieldMeta) (X Y : GoV) (h1 : fm.skip = false)
    (h2 : fm.role = Role.child) :
    structChardata (pre ++ (fm, X) :: post) =
      structChardata (pre ++ (fm, Y) :: post) := by
  unfold structChardata
  rw [notSkip_filter_middle pre post fm X h1,
    notSkip_filter_middle pre post fm Y h1]
  simp [List.filter_append, List.filter_cons, h2]

theorem structCdata_middle_indep (pre post : List (FieldMeta × GoV))
    (fm : FieldMeta) (X Y : GoV) (h1 : fm.skip = false)
    (h2 : fm.role = Role.child) :
    structCdata (pre ++ (fm, X) :: post) =
      structCdata (pre ++ (fm, Y) :: post) := by
  unfold structCdata
  rw [notSkip_filter_middle pre post fm X h1,
    notSkip_filter_middle pre post fm Y h1]
  simp [List.filter_append, List.filter_cons, h2]

theorem structHasContent_middle_true (pre post : List (FieldMeta × GoV))
    (fm : FieldMeta) (X : GoV) (h1 : fm.skip = false)
    (h2 : fm.role = Role.child) (h3 : fm.omitEmpty = false) :
    structHasContent (pre ++ (fm, X) :: post) = true := by
  unfold structHasContent
  rw [notSkip_filter_middle pre post fm X h1]
  have hany : ((pre.filter (fun f => !f.1.skip) ++
      (fm, X) :: post.filter (fun f => !f.1.skip)).filter
      (fun f => f.1.role = Role.child)).any
      (fun f => !(f.1.omitEmpty && isEmptyValue f.2)) = true := by
    simp [List.filter_append, List.filter_cons, h2, List.any_append,
      List.any_cons, h3]
  rw [hany]
  simp

theorem encodeChildren_single_active (fm : FieldMeta) (fv : GoV)
    (h1 : fm.skip = false) (h2 : fm.role = Role.child)
    (h3 : fm.omitEmpty = false) :
    encodeChildren [(fm, fv)] = encodeValue fv fm.name := by
  simp only [encodeChildren]
  rw [if_neg ?hng]
  · exact String.ext (by rw [String.data_append]; simp)
  case hng =>
    simp [h1, h2, h3]

end Enc

/-- C6: for a struct with a slice-typed child field (no `omitempty`),
`Marshal` emits exactly one self-closing element named after the field
when the slice is nil, and no elements at all for that field when the
slice is non-nil but empty: the two outputs differ exactly by one
`<name/>` occurrence at the field's position, the surrounding bytes
being identical. -/
theorem c6_nil_slice_selfclosing_empty_slice_nothing
    (tname : String) (pre post : List (Enc.FieldMeta × Enc.GoV))
    (fm : Enc.FieldMeta) (hrole : fm.role = Enc.Role.child)
    (hskip : fm.skip = false) (homit : fm.omitEmpty = false) :
    ∃ preS postS,
      Enc.Marshal (.vstruct tname (pre ++ (fm, .vslice none) :: post)) =
        preS ++ ("<" ++ fm.name ++ "/>") ++ postS ∧
      Enc.Marshal (.vstruct tname (pre ++ (fm, .vslice (some [])) :: post)) =
        preS ++ postS := by
  have hM : ∀ fields, Enc.Marshal (.vstruct tname fields) =
      Enc.encodeStructBody fields (if tname ≠ "" then tname else "root") :=
    fun _ => rfl
  set root := if tname ≠ "" then tname else "root" with hrootdef
  refine ⟨"<" ++ root ++
      Enc.attrsText (Enc.structAttrs (pre ++ (fm, .vslice (some [])) :: post))
      ++ ">" ++
      Enc.chardataText
        (Enc.structChardata (pre ++ (fm, .vslice (some [])) :: post)) ++
      Enc.cdataText
        (Enc.structCdata (pre ++ (fm, .vslice (some [])) :: post)) ++
      Enc.encodeChildren pre,
    Enc.encodeChildren post ++ "</" ++ root ++ ">", ?_, ?_⟩
  · rw [hM]
    unfold Enc.encodeStructBody
    rw [Enc.structHasContent_middle_true pre post fm _ hskip hrole homit]
    rw [Enc.structAttrs_middle_indep pre post fm (.vslice none)
      (.vslice (some [])) hskip hrole]
    rw [Enc.structChardata_middle_indep pre post fm (.vslice none)
      (.vslice (some [])) hskip hrole]
    rw [Enc.structCdata_middle_indep pre post fm (.vslice none)
      (.vslice (some [])) hskip hrole]
    have hch : Enc.encodeChildren (pre ++ (fm, .vslice none) :: post) =
        Enc.encodeChildren pre ++ ("<" ++ fm.name ++ "/>") ++
          Enc.encodeChildren post := by
      have : (fm, Enc.GoV.vslice none) :: post =
          [(fm, Enc.GoV.vslice none)] ++ post := rfl
      rw [this, ← List.append_assoc, Enc.encodeChildren_append,
        Enc.encodeChildren_append,
        Enc.encodeChildren_single_active fm _ hskip hrole homit]
      simp only [Enc.encodeValue]
    simp only [Bool.not_true, hch]
    apply String.ext
    simp [String.data_append]
  · rw [hM]
    unfold Enc.encodeStructBody
    rw [Enc.structHasContent_middle_true pre post fm _ hskip hrole homit]
    have hch : Enc.encodeChildren (pre ++ (fm, .vslice (some [])) :: post) =
        Enc.encodeChildren pre ++ Enc.encodeChildren post := by
      have : (fm, Enc.GoV.vslice (some [])) :: post =
          [(fm, Enc.GoV.vslice (some []))] ++ post := rfl
      rw [this, ← List.append_assoc, Enc.encodeChildren_append,
        Enc.encodeChildren_append,
        Enc.encodeChildren_single_active fm _ hskip hrole homit]
      simp only [Enc.encodeValue, Enc.encodeSliceElems]
      apply String.ext
      simp [String.data_append]
    simp only [Bool.not_true, hch]
    apply String.ext
    simp [String.data_append]

/-- C6 (witness): a single-field struct with an `items` slice field. -/
theorem c6_nil_slice_selfclosing_witness :
    (Enc.FieldMeta.mk "items" Enc.Role.child false false).role =
      Enc.Role.child ∧
    (Enc.FieldMeta.mk "items" Enc.Role.child false false).skip = false ∧
    (Enc.FieldMeta.mk "items" Enc.Role.child false false).omitEmpty = false ∧
    (∃ preS postS,
      Enc.Marshal (.vstruct "T" ([] ++
        (Enc.FieldMeta.mk "items" Enc.Role.child false false,
          Enc.GoV.vslice none) :: [])) =
        preS ++ ("<" ++ (Enc.FieldMeta.mk "items"
          Enc.Role.child false false).name ++ "/>") ++ postS ∧
      Enc.Marshal (.vstruct "T" ([] ++
        (Enc.FieldMeta.mk "items" Enc.Role.child false false,
          Enc.GoV.vslice (some [])) :: [])) = preS ++ postS) :=
  ⟨rfl, rfl, rfl,
    c6_nil_slice_selfclosing_empty_slice_nothing "T" [] []
      (Enc.FieldMeta.mk "items" Enc.Role.child false false) rfl rfl rfl⟩

namespace EncCache

/-- Runtime type identities dispatched on by the encoder compiler:
primitives, pointer, slice, and named struct types (the kinds whose
builders recurse into other types). -/
inductive TypeExpr where
  | tstr
  | tint
  | tbool
  | tptr (t : TypeExpr)
  | tslice (t : TypeExpr)
  | tnamed (n : String)
deriving DecidableEq, Repr

/-- A struct field as seen by `buildXMLStructEncoder`: its name, whether
the builder resolves a child encoder for it (attribute/chardata/CDATA
fields do not recurse), and its type. -/
structure FieldDef where
  fname : String
  isChild : Bool
  ftype : TypeExpr
deriving DecidableEq, Repr

/-- The named struct types of the program. -/
abbrev Env := List (String × List FieldDef)

def envGet : Env → String → Option (List FieldDef)
  | [], _ => none
  | (n', fs) :: r, n => if n' = n then some fs else envGet r n

/-- Compiled encoder routines as data; `ptrE`/`sliceE`/`structE` refer
to the encoders of other types by type identity, resolved through the
cache when encoding runs — exactly the behaviour of the captured
`elemEnc`/`childEnc` closure variables, which may be the forwarding
placeholder at capture time. -/
inductive EncCode where
  | prim (t : TypeExpr)
  | ptrE (inner : TypeExpr)
  | sliceE (inner : TypeExpr)
  | structE (children : List (String × TypeExpr))
deriving Repr

/-- A cache entry: the forwarding placeholder installed before building,
or the finished routine. -/
inductive Entry where
  | ph
  | real (code : EncCode)
deriving Repr

def Entry.isPh : Entry → Bool
  | .ph => true
  | .real _ => false

/-- The copy-on-write cache (`xmlEncoderCache`), as the association of
type identities to entries that the successive published snapshots
represent. -/
abbrev Cache := List (TypeExpr × Entry)

def cacheGet : Cache → TypeExpr → Option Entry
  | [], _ => none
  | (k', e) :: r, k => if k' = k then some e else cacheGet r k

def cacheSet : Cache → TypeExpr → Entry → Cache
  | [], k, e => [(k, e)]
  | (k', e') :: r, k, e =>
    if k' = k then (k, e) :: r else (k', e') :: cacheSet r k e

/-- The type identities a compiled routine resolves through the cache at
encoding time. -/
def refs : EncCode → List TypeExpr
  | .prim _ => []
  | .ptrE t => [t]
  | .sliceE t => [t]
  | .structE cs => cs.map Prod.snd

mutual

/-- Source `xmlEncoderForType`: cache hit returns at once (whether the
entry is the placeholder or a finished routine); otherwise the
placeholder for `t` is published first, the routine is built (which may
recurse into `encoderForType` for other types), and the placeholder is
finally replaced by the finished routine. The fuel only bounds the
recursion depth; `c5_encoder_cache_terminates` below shows a fuel of
one more than the number of reachable types is never exhausted. -/
def encoderForType : Nat → Env → Cache → TypeExpr → Option Cache
  | 0, _, _, _ => none
  | fuel + 1, env, cache, t =>
    match cacheGet cache t with
    | some _ => some cache
    | none =>
      match buildEncoder fuel env (cacheSet cache t .ph) t with
      | none => none
      | some (cache2, code) => some (cacheSet cache2 t (.real code))

/-- Source `buildXMLEncoder`: dispatch on the type's kind; pointer and
slice builders resolve the element type's encoder, the struct builder
resolves an encoder per child field. -/
def buildEncoder : Nat → Env → Cache → TypeExpr → Option (Cache × EncCode)
  | _, _, cache, .tstr => some (cache, .prim .tstr)
  | _, _, cache, .tint => some (cache, .prim .tint)
  | _, _, cache, .tbool => some (cache, .prim .tbool)
  | fuel, env, cache, .tptr t' =>
    match encoderForType fuel env cache t' with
    | none => none
    | some c => some (c, .ptrE t')
  | fuel, env, cache, .tslice t' =>
    match encoderForType fuel env cache t' with
    | none => none
    | some c => some (c, .sliceE t')
  | fuel, env, cache, .tnamed n =>
    match envGet env n with
    | none => none
    | some fields =>
      match buildFields fuel env cache (fields.filter (fun f => f.isChild))
      with
      | none => none
      | some (c, children) => some (c, .structE children)

/-- The per-field loop of `buildXMLStructEncoder`: resolve each child
field's encoder in order, threading the cache. -/
def buildFields : Nat → Env → Cache → List FieldDef →
    Option (Cache × List (String × TypeExpr))
  | _, _, cache, [] => some (cache, [])
  | fuel, env, cache, f :: r =>
    match encoderForType fuel env cache f.ftype with
    | none => none
    | some c1 =>
      match buildFields fuel env c1 r with
      | none => none
      | some (c2, rest) => some (c2, (f.fname, f.ftype) :: rest)

end

/-- Closure of a finite set of type identities under the references the
builders follow (modelled from the reachable-type structure of the
program's types). -/
def closedB (env : Env) (R : Finset TypeExpr) : TypeExpr → Bool
  | .tptr t' => t' ∈ R
  | .tslice t' => t' ∈ R
  | .tnamed n =>
    match envGet env n with
    | some fields =>
      (fields.filter (fun f => f.isChild)).all (fun f => f.ftype ∈ R)
    | none => false
  | _ => true

def Closed (env : Env) (R : Finset TypeExpr) : Prop :=
  ∀ t ∈ R, closedB env R t = true

/-- The reachable types not yet present in the cache. -/
def uncached (R : Finset TypeExpr) (c : Cache) : Finset TypeExpr :=
  R.filter (fun k => (cacheGet c k).isNone)

/-- Every finished routine in the cache only references cached types. -/
def RefsOK (c : Cache) : Prop :=
  ∀ k code, cacheGet c k = some (.real code) →
    ∀ u ∈ refs code, (cacheGet c u).isSome

theorem cacheGet_set_self : ∀ (c : Cache) (k : TypeExpr) (e : Entry),
    cacheGet (cacheSet c k e) k = some e := by
  intro c k e
  induction c with
  | nil => simp [cacheSet, cacheGet]
  | cons p r ih =>
    obtain ⟨k0, e0⟩ := p
    by_cases h : k0 = k
    · subst h
      simp [cacheSet, cacheGet]
    · simp only [cacheSet, if_neg h, cacheGet]
      exact ih

theorem cacheGet_set_other : ∀ (c : Cache) (k k' : TypeExpr) (e : Entry),
    k' ≠ k → cacheGet (cacheSet c k e) k' = cacheGet c k' := by
  intro c k k' e hne
  induction c with
  | nil =>
    simp only [cacheSet, cacheGet]
    rw [if_neg (fun h => hne h.symm)]
  | cons p r ih =>
    obtain ⟨k0, e0⟩ := p
    by_cases h : k0 = k
    · subst h
      simp only [cacheSet, if_pos rfl, cacheGet]
      rw [if_neg (fun he => hne he.symm), if_neg (fun he => hne he.symm)]
    · simp only [cacheSet, if_neg h, cacheGet]
      by_cases h2 : k0 = k'
      · rw [if_pos h2, if_pos h2]
      · rw [if_neg h2, if_neg h2]
        exact ih

end EncCache

namespace EncCache

theorem cacheGet_set_isSome (c : Cache) (t k : TypeExpr) (e : Entry)
    (h : (cacheGet c k).isSome) : (cacheGet (cacheSet c t e) k).isSome := by
  by_cases hk : k = t
  · subst hk
    rw [cacheGet_set_self]
    rfl
  · rw [cacheGet_set_other c t k e hk]
    exact h

theorem RefsOK_set_ph (c : Cache) (t : TypeExpr) (h : RefsOK c) :
    RefsOK (cacheSet c t .ph) := by
  intro k code hk u hu
  by_cases hkt : k = t
  · subst hkt
    rw [cacheGet_set_self] at hk
    cases hk
  · rw [cacheGet_set_other c t k _ hkt] at hk
    exact cacheGet_set_isSome c t u _ (h k code hk u hu)

/-- Domain monotonicity, placeholder preservation, caching of the
argument, and reference closure for `encoderForType` at a given fuel. -/
def EncSpec (fuel : Nat) : Prop :=
  ∀ env c t c', encoderForType fuel env c t = some c' →
    (∀ k, (cacheGet c k).isSome → (cacheGet c' k).isSome) ∧
    (cacheGet c' t).isSome ∧
    (∀ k, cacheGet c' k = some .ph → cacheGet c k = some .ph) ∧
    (RefsOK c → RefsOK c')

/-- The same invariants for `buildEncoder`, plus: the returned routine
only references cached types. -/
def BuildSpec (fuel : Nat) : Prop :=
  ∀ env c t c' code, buildEncoder fuel env c t = some (c', code) →
    (∀ k, (cacheGet c k).isSome → (cacheGet c' k).isSome) ∧
    (∀ k, cacheGet c' k = some .ph → cacheGet c k = some .ph) ∧
    (RefsOK c → RefsOK c') ∧
    (∀ u ∈ refs code, (cacheGet c' u).isSome)

/-- The same invariants for the field loop. -/
def FieldsSpec (fuel : Nat) : Prop :=
  ∀ env c fs c' children, buildFields fuel env c fs = some (c', children) →
    (∀ k, (cacheGet c k).isSome → (cacheGet c' k).isSome) ∧
    (∀ k, cacheGet c' k = some .ph → cacheGet c k = some .ph) ∧
    (RefsOK c → RefsOK c') ∧
    (∀ p ∈ children, (cacheGet c' p.2).isSome)

theorem encSpec_zero : EncSpec 0 := by
  intro env c t c' h
  simp [encoderForType] at h

theorem fieldsSpec_of_encSpec (fuel : Nat) (he : EncSpec fuel) :
    FieldsSpec fuel := by
  intro env c fs
  induction fs generalizing c with
  | nil =>
    intro c' children h
    simp only [buildFields] at h
    injection h with h0
    injection h0 with ha hb
    subst ha
    subst hb
    exact ⟨fun k hk => hk, fun k hk => hk, fun h => h, by simp⟩
  | cons f r ih =>
    intro c' children h
    simp only [buildFields] at h
    cases h1 : encoderForType fuel env c f.ftype with
    | none => rw [h1] at h; cases h
    | some c1 =>
      rw [h1] at h
      simp only [] at h
      cases h2 : buildFields fuel env c1 r with
      | none => rw [h2] at h; cases h
      | some pr =>
        obtain ⟨c2, rest⟩ := pr
        rw [h2] at h
        simp only [] at h
        injection h with h0
        injection h0 with ha hb
        subst ha
        subst hb
        obtain ⟨m1, a1, p1, r1⟩ := he env c f.ftype c1 h1
        obtain ⟨m2, p2, r2, cached2⟩ := ih c1 c2 rest h2
        refine ⟨fun k hk => m2 k (m1 k hk), fun k hk => p1 k (p2 k hk),
          fun hc => r2 (r1 hc), ?_⟩
        intro p hp
        rcases List.mem_cons.mp hp with hph | hpr
        · subst hph
          exact m2 _ a1
        · exact cached2 p hpr

theorem buildSpec_of (fuel : Nat) (he : EncSpec fuel)
    (hf : FieldsSpec fuel) : BuildSpec fuel := by
  intro env c t c' code h
  cases t with
  | tstr =>
    simp only [buildEncoder] at h
    injection h with h0
    injection h0 with ha hb
    subst ha; subst hb
    exact ⟨fun k hk => hk, fun k hk => hk, fun h => h, by simp [refs]⟩
  | tint =>
    simp only [buildEncoder] at h
    injection h with h0
    injection h0 with ha hb
    subst ha; subst hb
    exact ⟨fun k hk => hk, fun k hk => hk, fun h => h, by simp [refs]⟩
  | tbool =>
    simp only [buildEncoder] at h
    injection h with h0
    injection h0 with ha hb
    subst ha; subst hb
    exact ⟨fun k hk => hk, fun k hk => hk, fun h => h, by simp [refs]⟩
  | tptr t' =>
    simp only [buildEncoder] at h
    cases h1 : encoderForType fuel env c t' with
    | none => rw [h1] at h; cases h
    | some c1 =>
      rw [h1] at h
      simp only [] at h
      injection h with h0
      injection h0 with ha hb
      subst ha; subst hb
      obtain ⟨m1, a1, p1, r1⟩ := he env c t' c1 h1
      refine ⟨m1, p1, r1, ?_⟩
      intro u hu
      simp only [refs, List.mem_singleton] at hu
      subst hu
      exact a1
  | tslice t' =>
    simp only [buildEncoder] at h
    cases h1 : encoderForType fuel env c t' with
    | none => rw [h1] at h; cases h
    | some c1 =>
      rw [h1] at h
      simp only [] at h
      injection h with h0
      injection h0 with ha hb
      subst ha; subst hb
      obtain ⟨m1, a1, p1, r1⟩ := he env c t' c1 h1
      refine ⟨m1, p1, r1, ?_⟩
      intro u hu
      simp only [refs, List.mem_singleton] at hu
      subst hu
      exact a1
  | tnamed n =>
    simp only [buildEncoder] at h
    cases h1 : envGet env n with
    | none => rw [h1] at h; cases h
    | some fields =>
      rw [h1] at h
      simp only [] at h
      cases h2 : buildFields fuel env c (fields.filter (fun f => f.isChild))
      with
      | none => rw [h2] at h; cases h
      | some pr =>
        obtain ⟨c1, children⟩ := pr
        rw [h2] at h
        simp only [] at h
        injection h with h0
        injection h0 with ha hb
        subst ha; subst hb
        obtain ⟨m1, p1, r1, cached1⟩ := hf env c _ c1 children h2
        refine ⟨m1, p1, r1, ?_⟩
        intro u hu
        simp only [refs, List.mem_map] at hu
        obtain ⟨p, hp, hpu⟩ := hu
        subst hpu
        exact cached1 p hp

theorem encSpec_succ (fuel : Nat) (hb : BuildSpec fuel) :
    EncSpec (fuel + 1) := by
  intro env c t c' h
  simp only [encoderForType] at h
  cases hget : cacheGet c t with
  | some e =>
    rw [hget] at h
    simp only [] at h
    injection h with h0
    subst h0
    exact ⟨fun k hk => hk, by rw [hget]; rfl, fun k hk => hk, fun h => h⟩
  | none =>
    rw [hget] at h
    simp only [] at h
    cases h1 : buildEncoder fuel env (cacheSet c t .ph) t with
    | none => rw [h1] at h; cases h
    | some pr =>
      obtain ⟨c2, code⟩ := pr
      rw [h1] at h
      simp only [] at h
      injection h with h0
      subst h0
      obtain ⟨m1, p1, r1, refs1⟩ := hb env (cacheSet c t .ph) t c2 code h1
      refine ⟨?_, ?_, ?_, ?_⟩
      · intro k hk
        exact cacheGet_set_isSome c2 t k _
          (m1 k (cacheGet_set_isSome c t k _ hk))
      · rw [cacheGet_set_self]
        rfl
      · intro k hk
        by_cases hkt : k = t
        · subst hkt
          rw [cacheGet_set_self] at hk
          cases hk
        · rw [cacheGet_set_other c2 t k _ hkt] at hk
          have := p1 k hk
          rw [cacheGet_set_other c t k _ hkt] at this
          exact this
      · intro hOK
        have hOK2 : RefsOK c2 := r1 (RefsOK_set_ph c t hOK)
        intro k kcode hk u hu
        by_cases hkt : k = t
        · rw [hkt, cacheGet_set_self] at hk
          injection hk with hk0
          injection hk0 with hk1
          subst hk1
          exact cacheGet_set_isSome c2 t u _ (refs1 u hu)
        · rw [cacheGet_set_other c2 t k _ hkt] at hk
          exact cacheGet_set_isSome c2 t u _ (hOK2 k kcode hk u hu)

theorem encSpec_all : ∀ fuel, EncSpec fuel := by
  intro fuel
  induction fuel with
  | zero => exact encSpec_zero
  | succ n ih =>
    exact encSpec_succ n (buildSpec_of n ih (fieldsSpec_of_encSpec n ih))

theorem buildSpec_all (fuel : Nat) : BuildSpec fuel :=
  buildSpec_of fuel (encSpec_all fuel) (fieldsSpec_of_encSpec fuel
    (encSpec_all fuel))

theorem fieldsSpec_all (fuel : Nat) : FieldsSpec fuel :=
  fieldsSpec_of_encSpec fuel (encSpec_all fuel)

end EncCache

namespace EncCache

theorem uncached_subset_of_mono (R : Finset TypeExpr) (c c' : Cache)
    (m : ∀ k, (cacheGet c k).isSome → (cacheGet c' k).isSome) :
    uncached R c' ⊆ uncached R c := by
  intro k hk
  simp only [uncached, Finset.mem_filter] at hk ⊢
  refine ⟨hk.1, ?_⟩
  cases h : cacheGet c k with
  | none => rfl
  | some v =>
    have hs : (cacheGet c' k).isSome := m k (by rw [h]; rfl)
    have hn := hk.2
    rw [Option.isNone_iff_eq_none] at hn
    rw [hn] at hs
    simp at hs

theorem uncached_set_erase (R : Finset TypeExpr) (c : Cache)
    (t : TypeExpr) (e : Entry) :
    uncached R (cacheSet c t e) = (uncached R c).erase t := by
  ext k
  simp only [uncached, Finset.mem_filter, Finset.mem_erase]
  by_cases hk : k = t
  · subst hk
    rw [cacheGet_set_self]
    simp
  · rw [cacheGet_set_other c t k e hk]
    simp [hk]

/-- Adequate fuel for `encoderForType`: more fuel than there are
reachable uncached types guarantees success. -/
def EncAdeq (fuel : Nat) : Prop :=
  ∀ env R c t, Closed env R → t ∈ R → (uncached R c).card < fuel →
    (encoderForType fuel env c t).isSome

def BuildAdeq (fuel : Nat) : Prop :=
  ∀ env R c t, Closed env R → closedB env R t = true →
    (uncached R c).card < fuel → (buildEncoder fuel env c t).isSome

def FieldsAdeq (fuel : Nat) : Prop :=
  ∀ env R c fs, Closed env R → (∀ f ∈ fs, f.ftype ∈ R) →
    (uncached R c).card < fuel → (buildFields fuel env c fs).isSome

theorem fieldsAdeq_of (fuel : Nat) (hea : EncAdeq fuel) :
    FieldsAdeq fuel := by
  intro env R c fs
  induction fs generalizing c with
  | nil =>
    intro _ _ _
    simp [buildFields]
  | cons f r ih =>
    intro hC hR hcard
    have hft : f.ftype ∈ R := hR f (List.mem_cons_self f r)
    have h1s : (encoderForType fuel env c f.ftype).isSome :=
      hea env R c f.ftype hC hft hcard
    cases h1 : encoderForType fuel env c f.ftype with
    | none => rw [h1] at h1s; cases h1s
    | some c1 =>
      have mono := (encSpec_all fuel env c f.ftype c1 h1).1
      have hcard1 : (uncached R c1).card < fuel :=
        lt_of_le_of_lt
          (Finset.card_le_card (uncached_subset_of_mono R c c1 mono)) hcard
      have hRr : ∀ g ∈ r, g.ftype ∈ R :=
        fun g hg => hR g (List.mem_cons_of_mem f hg)
      have h2s := ih c1 hC hRr hcard1
      cases h2 : buildFields fuel env c1 r with
      | none => rw [h2] at h2s; cases h2s
      | some pr =>
        obtain ⟨c2, rest⟩ := pr
        simp [buildFields, h1, h2]

theorem buildAdeq_of (fuel : Nat) (hea : EncAdeq fuel)
    (hfa : FieldsAdeq fuel) : BuildAdeq fuel := by
  intro env R c t hC hcb hcard
  cases t with
  | tstr => simp [buildEncoder]
  | tint => simp [buildEncoder]
  | tbool => simp [buildEncoder]
  | tptr t' =>
    simp only [closedB, decide_eq_true_eq] at hcb
    have h1s := hea env R c t' hC hcb hcard
    cases h1 : encoderForType fuel env c t' with
    | none => rw [h1] at h1s; cases h1s
    | some c1 => simp [buildEncoder, h1]
  | tslice t' =>
    simp only [closedB, decide_eq_true_eq] at hcb
    have h1s := hea env R c t' hC hcb hcard
    cases h1 : encoderForType fuel env c t' with
    | none => rw [h1] at h1s; cases h1s
    | some c1 => simp [buildEncoder, h1]
  | tnamed n =>
    simp only [closedB] at hcb
    cases he : envGet env n with
    | none => rw [he] at hcb; simp at hcb
    | some fields =>
      rw [he] at hcb
      simp only [List.all_eq_true, decide_eq_true_eq] at hcb
      have h2s := hfa env R c (fields.filter (fun f => f.isChild)) hC hcb
        hcard
      cases h2 : buildFields fuel env c (fields.filter (fun f => f.isChild))
      with
      | none => rw [h2] at h2s; cases h2s
      | some pr =>
        obtain ⟨c1, children⟩ := pr
        simp [buildEncoder, he, h2]

theorem encAdeq_succ (fuel : Nat) (hba : BuildAdeq fuel) :
    EncAdeq (fuel + 1) := by
  intro env R c t hC ht hcard
  cases hget : cacheGet c t with
  | some e => simp [encoderForType, hget]
  | none =>
    have htm : t ∈ uncached R c := by
      simp [uncached, Finset.mem_filter, ht, hget]
    have hcard2 : (uncached R (cacheSet c t .ph)).card < fuel := by
      rw [uncached_set_erase R c t .ph, Finset.card_erase_of_mem htm]
      have hpos : 0 < (uncached R c).card := Finset.card_pos.mpr ⟨t, htm⟩
      omega
    have hbs := hba env R (cacheSet c t .ph) t hC (hC t ht) hcard2
    cases h1 : buildEncoder fuel env (cacheSet c t .ph) t with
    | none => rw [h1] at hbs; cases hbs
    | some pr =>
      obtain ⟨c2, code⟩ := pr
      simp [encoderForType, hget, h1]

theorem encAdeq_all : ∀ fuel, EncAdeq fuel := by
  intro fuel
  induction fuel with
  | zero =>
    intro env R c t _ _ hcard
    exact absurd hcard (Nat.not_lt_zero _)
  | succ n ih =>
    exact encAdeq_succ n (buildAdeq_of n ih (fieldsAdeq_of n ih))

theorem RefsOK_nil : RefsOK ([] : Cache) := by
  intro k code hk
  simp [cacheGet] at hk

/-- The recursive list-node type used for the witness: a struct whose
first field points back to the struct type itself. -/
def nodeEnv : Env :=
  [("Node", [⟨"next", true, .tptr (.tnamed "Node")⟩, ⟨"val", true, .tstr⟩])]

def nodeR : Finset TypeExpr :=
  {TypeExpr.tnamed "Node", TypeExpr.tptr (TypeExpr.tnamed "Node"),
    TypeExpr.tstr}

end EncCache

namespace EncCache

/-- C5: for every environment and every set `R` of types closed under
the references the builders follow, building the cached encoder for any
`t ∈ R` — including self-referential struct types — terminates within
fuel `R.card + 1` (so the recursion never runs unboundedly): the
placeholder published before recursing guarantees each type is built at
most once, no placeholder is left in the final cache, the requested
type's finished routine is present, and every reference a finished
routine resolves at encoding time is resolvable in the final cache. -/
theorem c5_encoder_cache_terminates (env : Env) (R : Finset TypeExpr)
    (t : TypeExpr) (hC : Closed env R) (ht : t ∈ R) :
    ∃ c', encoderForType (R.card + 1) env [] t = some c' ∧
      (∀ k e, cacheGet c' k = some e → e.isPh = false) ∧
      (∃ code, cacheGet c' t = some (.real code)) ∧
      RefsOK c' := by
  have hcard : (uncached R ([] : Cache)).card < R.card + 1 := by
    have huc : uncached R ([] : Cache) = R := by
      ext k
      simp [uncached, cacheGet]
    rw [huc]
    exact Nat.lt_succ_self _
  have hs := encAdeq_all (R.card + 1) env R [] t hC ht hcard
  obtain ⟨c', h1⟩ := Option.isSome_iff_exists.mp hs
  obtain ⟨mono, hcached, hph, hrefs⟩ := encSpec_all (R.card + 1) env [] t c' h1
  refine ⟨c', h1, ?_, ?_, ?_⟩
  · intro k e hk
    cases e with
    | ph =>
      have := hph k hk
      simp [cacheGet] at this
    | real code => rfl
  · cases hc : cacheGet c' t with
    | none => rw [hc] at hcached; cases hcached
    | some e =>
      cases e with
      | ph =>
        have := hph t hc
        simp [cacheGet] at this
      | real code => exact ⟨code, rfl⟩
  · exact hrefs RefsOK_nil

/-- Witness: the self-referential `Node` struct type, whose `next`
field is a pointer back to `Node`, together with its reachable types. -/
theorem c5_encoder_cache_terminates_witness :
    ∃ c', encoderForType (nodeR.card + 1) nodeEnv []
        (TypeExpr.tnamed "Node") = some c' ∧
      (∀ k e, cacheGet c' k = some e → e.isPh = false) ∧
      (∃ code, cacheGet c' (TypeExpr.tnamed "Node") = some (.real code)) ∧
      RefsOK c' :=
  c5_encoder_cache_terminates nodeEnv nodeR (TypeExpr.tnamed "Node")
    ((by decide : ∀ u ∈ nodeR, closedB nodeEnv nodeR u = true) :
      Closed nodeEnv nodeR)
    (by decide)

end EncCache
